import Mathlib

/-!
Verification of the `piw` (Potsdam Interactive Webapp) package against its
natural-language specification.

The Python code is shallowly embedded.  Python dictionaries (which preserve
insertion order and have unique keys) are modelled as ordered association
lists `List (String × β)`; the operations `dget`, `dcontains`, `dinsert`,
`dunion` and `pyDictOf` below mirror, respectively, `d[k]` lookup,
`k in d`, `d[k] = v` assignment, the `|` dict-union operator (right operand
overriding, left operand key positions kept) and building a dict by inserting
a sequence of key/value pairs (as a dict literal or comprehension does).
Python values appearing in figure specifications are modelled by the
inductive type `Val`.  Strings are compared and sliced by code points, as
Python does; the helpers `strStartsWith` and `strDrop` work on the
character list of the string.
-/

namespace Piw



/-- Python `d[k]` for an association list: the value at the first matching
key, if any. -/
def dget {β : Type} (l : List (String × β)) (k : String) : Option β :=
  match l with
  | [] => none
  | e :: rest => if e.1 = k then some e.2 else dget rest k

/-- Python `k in d`. -/
def dcontains {β : Type} (l : List (String × β)) (k : String) : Bool :=
  (dget l k).isSome

/-- Python `d[k] = v`: update the value at the first occurrence of `k`
keeping its position, or append `(k, v)` at the end if `k` is absent. -/
def dinsert {β : Type} (k : String) (v : β) : List (String × β) → List (String × β)
  | [] => [(k, v)]
  | e :: rest => if e.1 = k then (k, v) :: rest else e :: dinsert k v rest

/-- Python dict union `d1 | d2`: keys of `d1` keep their positions but take
the value from `d2` when present there; keys only in `d2` are appended in
their `d2` order. -/
def dunion {β : Type} (d1 d2 : List (String × β)) : List (String × β) :=
  d1.map (fun e => (e.1, (dget d2 e.1).getD e.2)) ++
    d2.filter (fun e => ! dcontains d1 e.1)

/-- The key list of an association list. -/
def dkeys {β : Type} (l : List (String × β)) : List String :=
  l.map (·.1)

/-- Building a Python dict from a sequence of key/value pairs (dict literal,
dict comprehension): sequential insertion, so the first occurrence of a key
fixes its position and the last occurrence fixes its value. -/
def pyDictOf {β : Type} (l : List (String × β)) : List (String × β) :=
  l.foldl (fun acc e => dinsert e.1 e.2 acc) []

/-- Keys are pairwise distinct, the invariant every value modelling an
actual Python dict enjoys. -/
def NodupKeys {β : Type} (l : List (String × β)) : Prop :=
  (dkeys l).Nodup

/-- Python values appearing in `piw` figure specifications. -/
inductive Val : Type where
  | vnone : Val
  | vstr : String → Val
  | vnat : Nat → Val
  | vlist : List Val → Val
  | vdict : List (String × Val) → Val

/-- View a `Val` as a dict; non-dicts give the empty list (Python raises
instead, so theorems that depend on this corner carry a well-formedness
hypothesis ruling it out). -/
def asDict : Val → List (String × Val)
  | .vdict d => d
  | _ => []

/-- A plotly `go.Figure`, reduced to the one aspect the specification talks
about: the list of annotation texts added to it. -/
structure GoFigure : Type where
  anns : List String
deriving DecidableEq

/-- The first full entry with the given key. -/
def dfind {β : Type} (l : List (String × β)) (k : String) : Option (String × β) :=
  match l with
  | [] => none
  | e :: rest => if e.1 = k then some e else dfind rest k

/-! String helpers.  Python strings are sequences of code points; slicing and
prefix tests are modelled on the character list of the Lean string, which has
exactly Python's semantics for the operations used by `piw`. -/

/-- Python `s.startswith(p)`. -/
def strStartsWith (s p : String) : Bool :=
  p.toList.isPrefixOf s.toList

/-- Python slicing from a character index: `s[n:]`. -/
def strDrop (s : String) (n : Nat) : String :=
  ⟨s.toList.drop n⟩

/-- Python `len(s)`. -/
def strLen (s : String) : Nat :=
  s.toList.length

/-! Embedding of `src/piw/abstract_plot.py`. -/

/-- Python `route in display_list` where `route` is a string: list membership
by `==`; a string never equals a non-string value. -/
def displayContains (route : String) (v : Val) : Bool :=
  match v with
  | .vlist l => l.any (fun x => match x with
      | .vstr s => decide (s = route)
      | _ => false)
  | _ => false

/-- Python `route in fig_specs['display']` for a figure-spec value.  The
callers of this expression only ever reach it for specs that do have a
`'display'` key (they are filtered on `'display' in fig_specs` first), so
the `none` fallback is unreachable in the modelled programs. -/
def figDisplayContains (route : String) (specs : Val) : Bool :=
  match dget (asDict specs) "display" with
  | some dv => displayContains route dv
  | none => false

/-- The keys a sub-figure specification retains, `sub_specs` in
`AbstractPlot.subfigs` (abstract_plot.py line 38). -/
def sub_spec_keys : List String := ["size", "config"]

/-- One entry of the derived sub-figure dict:
`{k: v for k, v in subfig_specs.items() if k in sub_specs} | {'parent': fig_name}`
(abstract_plot.py lines 43 and 48). -/
def subfig_entry (fig_name : String) (specs : List (String × Val)) : List (String × Val) :=
  dunion (specs.filter (fun e => decide (e.1 ∈ sub_spec_keys))) [("parent", Val.vstr fig_name)]

/-- The dict merged into the accumulator for one figure in
`AbstractPlot.subfigs` (abstract_plot.py lines 42-45 and 47-49), before
deduplication: the per-sub-figure entries of a figure that declares
`'subfigs'`, or the figure itself as its own single sub-figure. -/
def subfigs_piece (fe : String × Val) : List (String × List (String × Val)) :=
  match dget (asDict fe.2) "subfigs" with
  | some sfv => (asDict sfv).map (fun se => (se.1, subfig_entry fe.1 (asDict se.2)))
  | none => [(fe.1, subfig_entry fe.1 (asDict fe.2))]

/-- One step of the loop in `AbstractPlot.subfigs` (abstract_plot.py lines
40-49): `self._subfigs |= {...}` with the dict comprehension (or one-entry
literal) for this figure. -/
def subfigs_step (acc : List (String × List (String × Val))) (fe : String × Val) :
    List (String × List (String × Val)) :=
  dunion acc (pyDictOf (subfigs_piece fe))

/-- The derived sub-figure dict `AbstractPlot.subfigs` (abstract_plot.py
lines 35-51), computed from the figure dict. -/
def subfigsOf (figs : List (String × Val)) : List (String × List (String × Val)) :=
  figs.foldl subfigs_step []

/-- The per-sub-figure configuration dict `AbstractPlot._subfig_cfgs`
(abstract_plot.py lines 15-18).  Note the Python conditional expression
binds looser than `|`, so this is
`(self.cfg | subfig_specs['config']) if 'config' in subfig_specs else {}`. -/
def subfig_cfgs (cfg : List (String × Val)) (figs : List (String × Val)) :
    List (String × List (String × Val)) :=
  (subfigsOf figs).map (fun se =>
    (se.1, match dget se.2 "config" with
      | some cv => dunion cfg (asDict cv)
      | none => []))

/-- An `AbstractPlot` subclass instance: its `figs` and `cfg` class
properties and its `plot` method.  The default `_decorate` (abstract_plot.py
lines 78-79) does nothing and is embedded as the identity on the produced
sub-figure dict. -/
structure Plot : Type where
  figs : List (String × Val)
  cfg : List (String × Val)
  plotFn : List (String × Val) → List (String × Val) → List String →
    List (String × Option GoFigure)

/-- The placeholder figure built in `AbstractPlot._add_placeholders`
(abstract_plot.py lines 85-99): a fresh `go.Figure` carrying a single
annotation with the text below. -/
def placeholder_fig : GoFigure :=
  { anns := ["<b>Press GENERATE to<br>display this plot.</b>"] }

/-- One iteration of the `_add_placeholders` loop: if the sub-figure name is
missing from the dict (`subfig_name not in subfigs`) or maps to `None`
(`subfigs[subfig_name] is None`), assign the placeholder figure to it. -/
def placeholder_step (acc : List (String × Option GoFigure)) (name : String) :
    List (String × Option GoFigure) :=
  match dget acc name with
  | none => dinsert name (some placeholder_fig) acc
  | some none => dinsert name (some placeholder_fig) acc
  | some (some _) => acc

/-- `AbstractPlot._add_placeholders` (abstract_plot.py lines 82-100): for
every sub-figure name of the plot, if it is missing from the produced dict
or maps to `None`, assign the placeholder figure to it. -/
def add_placeholders (subfig_names : List String)
    (d : List (String × Option GoFigure)) : List (String × Option GoFigure) :=
  subfig_names.foldl placeholder_step d

/-- The sub-figure names selected in `AbstractPlot.produce` (abstract_plot.py
lines 61-64): those whose parent figure is in `fig_names`, or all of them
when `fig_names` is `None`. -/
def produce_subfig_names (p : Plot) (fig_names : Option (List String)) : List String :=
  ((subfigsOf p.figs).filter (fun se =>
    match fig_names with
    | none => true
    | some fns =>
      match dget se.2 "parent" with
      | some (.vstr pn) => decide (pn ∈ fns)
      | _ => false)).map (·.1)

/-- The value of the local variable `subfigs` in `AbstractPlot.produce`
before `_decorate` and placeholder insertion (abstract_plot.py line 65):
`self.plot(inputs, outputs, subfig_names) if subfig_names else {}`. -/
def produce_pre (p : Plot) (inputs outputs : List (String × Val))
    (fig_names : Option (List String)) : List (String × Option GoFigure) :=
  let subfig_names := produce_subfig_names p fig_names
  if subfig_names.isEmpty then [] else p.plotFn inputs outputs subfig_names

/-- `AbstractPlot.produce` (abstract_plot.py lines 60-72) for a plot whose
current `_target` is `target` (set by `update`): the selected sub-figures
are plotted (the default `_decorate` does nothing), and for the `'webapp'`
target placeholders are added for every sub-figure of the plot. -/
def produce (p : Plot) (target : String) (inputs outputs : List (String × Val))
    (fig_names : Option (List String)) : List (String × Option GoFigure) :=
  let subfigs := produce_pre p inputs outputs fig_names
  if target = "webapp" then add_placeholders (dkeys (subfigsOf p.figs)) subfigs else subfigs

/-! Embedding of `src/piw/webapp.py`. -/

/-- The allowed export formats, `ALLOWED_EXPORT_FORMATS` (webapp.py line 20). -/
def ALLOWED_EXPORT_FORMATS : List String := ["png", "svg", "pdf"]

/-- A `Webapp` instance, reduced to the constructor arguments the claims
are about (after the constructor has stored them in `self`).  Load, process
and update functions mutate dicts in Python and are modelled as functions
returning the updated dict. -/
structure Webapp : Type where
  root_path : String
  default_template : String
  input_caching : Bool
  load : List (List (String × Val) → List (String × Val))
  procs : List (List (String × Val) → List (String × Val) → List (String × Val))
  updates : List (List (String × Val) → Option String → List Val → List (String × Val))
  plots : List Plot

/-- `Webapp._proc_inputs` (webapp.py lines 288-294): run every processing
function over the inputs, threading the `outputs` dict that starts empty. -/
def proc_inputs (w : Webapp) (inputs : List (String × Val)) : List (String × Val) :=
  w.procs.foldl (fun outputs f => f inputs outputs) []

/-- `Webapp.display` (webapp.py lines 231-241): process the inputs, then for
every plot set the target to `'webapp'` and merge its produced sub-figures. -/
def display (w : Webapp) (inputs : List (String × Val)) (fig_names : List String) :
    List (String × Option GoFigure) :=
  let outputs := proc_inputs w inputs
  w.plots.foldl (fun acc p => dunion acc (produce p "webapp" inputs outputs (some fig_names))) []

/-- The `figs_displayed` dict built in `Webapp.start` (webapp.py lines
170-175): all figures of all plots whose specs have a `'display'` key. -/
def figsDisplayed (w : Webapp) : List (String × Val) :=
  pyDictOf (w.plots.foldr (fun p acc =>
    p.figs.filter (fun fe => dcontains (asDict fe.2) "display") ++ acc) [])

/-- Whether the parent figure of a sub-figure spec has a `'display'` key in
the given plot, `'display' in plot.figs[subfig_specs['parent']]`
(webapp.py line 180). -/
def parentDisplayed (p : Plot) (spec : List (String × Val)) : Bool :=
  match dget spec "parent" with
  | some (.vstr pn) =>
    match dget p.figs pn with
    | some fspec => dcontains (asDict fspec) "display"
    | none => false
  | _ => false

/-- The `subfigs_displayed` dict built in `Webapp.start` (webapp.py lines
176-181): all sub-figures of all plots whose parent figure has a
`'display'` key. -/
def subfigsDisplayed (w : Webapp) : List (String × List (String × Val)) :=
  pyDictOf (w.plots.foldr (fun p acc =>
    (subfigsOf p.figs).filter (fun se => parentDisplayed p se.2) ++ acc) [])

/-- The default figure names computed in `Webapp.start` (webapp.py lines
159-163): figures with a `'display'` list containing the empty route. -/
def default_fig_names (w : Webapp) : List String :=
  w.plots.foldr (fun p acc =>
    (p.figs.filter (fun fe =>
      dcontains (asDict fe.2) "display" && figDisplayContains "" fe.2)).map (·.1) ++ acc) []

/-- The five metadata keys `Webapp._insert_missing_metadata` may add, with
their default values; the `'date'` default is today's date, passed in as
`today`. -/
def metaDefault (today : String) (k : String) : Val :=
  if k = "title" then Val.vstr "No title provided"
  else if k = "abstract" then Val.vstr "No abstract provided"
  else if k = "authors" then Val.vlist []
  else if k = "date" then Val.vstr today
  else Val.vstr "No about provided."

/-- One `if key not in metadata: metadata[key] = default` step of
`Webapp._insert_missing_metadata`. -/
def meta_step (c : String) (v : Val) (d : List (String × Val)) : List (String × Val) :=
  if dcontains d c then d else dinsert c v d

/-- `Webapp._insert_missing_metadata` (webapp.py lines 244-259): insert a
default value for each of the five keys that is absent, in source order. -/
def insert_missing_metadata (today : String) (m : List (String × Val)) :
    List (String × Val) :=
  meta_step "about" (metaDefault today "about")
    (meta_step "date" (metaDefault today "date")
      (meta_step "authors" (metaDefault today "authors")
        (meta_step "abstract" (metaDefault today "abstract")
          (meta_step "title" (metaDefault today "title") m))))

/-- The file-system state `Webapp._load_def_inputs` interacts with:
whether the caching directory exists (and is a directory), whether the cache
file for this `piw_id` exists in it, and the inputs dict its pickled content
denotes. -/
structure CacheState : Type where
  dir_exists : Bool
  file_exists : Bool
  file_content : List (String × Val)

/-- `Webapp._load_def_inputs` (webapp.py lines 262-285).  Returns the
default-inputs dict together with the cache state after the call (the cache
file is written when caching is on and the file did not exist); raises when
caching is on but the caching directory does not exist. -/
def load_def_inputs (input_caching : Bool) (cs : CacheState)
    (load : List (List (String × Val) → List (String × Val))) :
    Except String (List (String × Val) × CacheState) :=
  if input_caching then
    if cs.dir_exists then
      if cs.file_exists then
        .ok (cs.file_content, cs)
      else
        let inputs := load.foldl (fun acc f => f acc) []
        .ok (inputs, { cs with file_exists := true, file_content := inputs })
    else
      .error "Input caching directory does not exist."
  else
    .ok (load.foldl (fun acc f => f acc) [], cs)

/-- `Webapp._set_template` (webapp.py lines 297-304) over the keys of the
global `pio.templates` registry: register `'piw'` first when it is the
default, then require the default to be registered. -/
def set_template (registered : List String) (default_template : String) :
    Except String (List String) :=
  let registered1 :=
    if default_template = "piw" then
      if "piw" ∈ registered then registered else registered ++ ["piw"]
    else registered
  if default_template ∈ registered1 then .ok registered1
  else .error "Argument default_template must be a registered plotly template."

/-- The `export_formats` argument of `Webapp.export`: a string, a list of
arbitrary values, or a value of neither type. -/
inductive FormatsArg : Type where
  | fstr : String → FormatsArg
  | flist : List Val → FormatsArg
  | fother : FormatsArg

/-- Whether a list element passes `f not in ALLOWED_EXPORT_FORMATS` negated:
only the three allowed format strings do; any non-string compares unequal to
every allowed string. -/
def formatOk (v : Val) : Bool :=
  match v with
  | .vstr s => decide (s ∈ ALLOWED_EXPORT_FORMATS)
  | _ => false

/-- The format validation at the top of `Webapp.export` (webapp.py lines
199-205): a single string is wrapped into a one-element list; a value that
is neither a list nor a string raises; then any element outside the allowed
set raises.  On success the validated format strings are returned. -/
def check_export_formats : FormatsArg → Except String (List String)
  | .fother => .error "Formats must be a list of str or a single str."
  | .fstr s =>
    if (! formatOk (Val.vstr s)) then .error "Illegal format option found."
    else .ok [s]
  | .flist l =>
    if l.any (fun v => ! formatOk v) then .error "Illegal format option found."
    else .ok (l.filterMap (fun v => match v with | .vstr s => some s | _ => none))

/-- Whether `AbstractPlot.get_subfig_size` (abstract_plot.py lines 102-108)
succeeds for this sub-figure: the sub-figure exists, its spec has a
`'size'` dict with a `'print'` entry that is itself a dict.  The numeric
scaling `dpi * inch_per_mm * val` is floating point and none of the claims
mention the computed sizes, so only the lookups that can raise are
modelled. -/
def subfig_size_ok (p : Plot) (subfig_name : String) : Bool :=
  match dget (subfigsOf p.figs) subfig_name with
  | some specs =>
    match dget specs "size" with
    | some sv =>
      match dget (asDict sv) "print" with
      | some (.vdict _) => true
      | _ => false
    | none => false
  | none => false

/-- The size lookup of `Webapp.export`, `plot.get_subfig_size(subfig_name)`
(webapp.py line 224), as a fallible step. -/
def get_subfig_size_checked (p : Plot) (subfig_name : String) : Except String Unit :=
  if subfig_size_ok p subfig_name then .ok () else .error "KeyError in get_subfig_size."

/-- `Webapp.export` (webapp.py lines 197-228; `export` is a Lean keyword,
hence the name `exportFiles`).  Returns the list of file names written into
the output directory, one `<subfig_name>.<format>` per produced non-None
sub-figure and requested format, in write order.  The `registered`
parameter is the key set of the global `pio.templates` registry and `cs`
the cache state seen by `_load_def_inputs`. -/
def exportFiles (w : Webapp) (registered : List String) (cs : CacheState)
    (fig_names : Option (List String)) (export_formats : FormatsArg) :
    Except String (List String) := do
  let formats ← check_export_formats export_formats
  let _ ← set_template registered w.default_template
  let li ← load_def_inputs w.input_caching cs w.load
  let inputs := li.1
  let outputs := proc_inputs w inputs
  w.plots.foldlM (fun acc p =>
    let subfig_plots := produce p "print" inputs outputs fig_names
    subfig_plots.foldlM (fun acc2 e => do
      let _ ← get_subfig_size_checked p e.1
      match e.2 with
      | none => pure acc2
      | some _ => pure (acc2 ++ formats.map (fun fmt => e.1 ++ "." ++ fmt))) acc) []

/-! Embedding of `src/piw/callbacks.py`. -/

/-- The helper `_strip_route` (callbacks.py lines 17-20): raise unless the
route starts with the root path, then cut the root path off the front. -/
def strip_route (root_path route : String) : Except String String :=
  if strStartsWith route root_path then .ok (strDrop route (strLen root_path))
  else .error "Error in route: does not start with root path."

/-- The hidden style `{'display': 'none'}` returned by `show_fig_cards`;
the visible style is the empty dict. -/
def hide_style : List (String × String) := [("display", "none")]

/-- The callback `show_fig_cards` (callbacks.py lines 23-42): after
stripping the root path off the pathname, return one style per displayed
figure and then one per control in `ctrls_display` - empty to show when the
route is in the respective `'display'` list, `{'display': 'none'}` to
hide otherwise. -/
def show_fig_cards (root_path : String) (figs_displayed : List (String × Val))
    (ctrls_display : List (String × List String)) (pathname : String) :
    Except String (List (List (String × String))) := do
  let route ← strip_route root_path pathname
  pure ((figs_displayed.map (fun fe =>
      if figDisplayContains route fe.2 then [] else hide_style))
    ++ (ctrls_display.map (fun ce =>
      if decide (route ∈ ce.2) then [] else hide_style)))

/-- Insertion into a list sorted by a numeric key, before the first element
of key not smaller - the insertion step of a stable sort. -/
def insertSorted {α : Type} (key : α → Nat) (x : α) : List α → List α
  | [] => [x]
  | y :: ys => if key x ≤ key y then x :: y :: ys else y :: insertSorted key x ys

/-- Stable insertion sort by a numeric key.  Python `sorted(l, key=...)` is
specified to be a stable sort by key, and every stable sort by key computes
the same list, so this is a faithful model of it. -/
def sortByKey {α : Type} (key : α → Nat) : List α → List α
  | [] => []
  | x :: xs => insertSorted key x (sortByKey key xs)

/-- The closure environment `set_callbacks` receives from `Webapp.start`
(callbacks.py lines 11-14). -/
structure CallbackEnv : Type where
  figs_displayed : List (String × Val)
  subfigs_displayed : List (String × List (String × Val))
  subfig_plots_init : List (String × Option GoFigure)
  def_inputs : List (String × Val)
  update : List (List (String × Val) → Option String → List Val → List (String × Val))
  display : List (String × Val) → List String →
    List (String × Option GoFigure)
  root_path : String

/-- The figures required for the current route (callbacks.py lines 67-72):
those of the displayed figures whose `'display'` list contains the route. -/
def fig_names_req (figs_displayed : List (String × Val)) (route : String) : List String :=
  (figs_displayed.filter (fun fe => figDisplayContains route fe.2)).map (·.1)

/-- The regeneration callback `callback_update` (callbacks.py lines 45-82).
`triggered` is `bool(ctx.triggered)` and `btn_pressed` the already-extracted
button name (the code wraps its extraction in try/except, so any value can
arrive here).  When not triggered the initial figures are used; otherwise
the inputs are deep-copied and updated, the figures whose `'display'` list
contains the current route are requested, and the `display` pipeline is run.
The generated sub-figures are then filtered to the displayed ones and sorted
by their position in `subfigs_displayed`, and their values are returned. -/
def callback_update (env : CallbackEnv) (triggered : Bool) (btn_pressed : Option String)
    (args : List Val) (pathname : String) : Except String (List (Option GoFigure)) := do
  let route ← strip_route env.root_path pathname
  let subfigs_generated :=
    if triggered then
      let inputs_updated := env.update.foldl (fun i u => u i btn_pressed args) env.def_inputs
      env.display inputs_updated (fig_names_req env.figs_displayed route)
    else env.subfig_plots_init
  let displayed_keys := dkeys env.subfigs_displayed
  let entries := subfigs_generated.filter (fun e => decide (e.1 ∈ displayed_keys))
  pure ((sortByKey (fun e => displayed_keys.indexOf e.1) entries).map (·.2))

/-- The environment `Webapp.start` passes to `set_callbacks` (webapp.py
lines 164 and 188-190), given the default inputs `_load_def_inputs`
produced. -/
def mkEnv (w : Webapp) (def_inputs : List (String × Val)) : CallbackEnv :=
  { figs_displayed := figsDisplayed w
    subfigs_displayed := subfigsDisplayed w
    subfig_plots_init := display w def_inputs (default_fig_names w)
    def_inputs := def_inputs
    update := w.updates
    display := display w
    root_path := w.root_path }

/-! Embedding of the argument validation in `Webapp.__init__`
(webapp.py lines 43-95).  Arguments are modelled as Python values. -/

/-- A Python value as seen by the `isinstance` checks of the constructor. -/
inductive Py : Type where
  | pynone : Py
  | pystr : String → Py
  | pybool : Bool → Py
  | pyint : Int → Py
  | pylist : List Py → Py
  | pydict : List (Py × Py) → Py
  | pyfunc : Py
  | pycls : Bool → Py
  | pypath : Py

def Py.isNone : Py → Bool | .pynone => true | _ => false

def Py.isStr : Py → Bool | .pystr _ => true | _ => false

def Py.isBool : Py → Bool | .pybool _ => true | _ => false

def Py.isList : Py → Bool | .pylist _ => true | _ => false

def Py.isDict : Py → Bool | .pydict _ => true | _ => false

def Py.isPath : Py → Bool | .pypath => true | _ => false

/-- `isinstance(x, Callable)`: functions and classes are callable. -/
def Py.isCallable : Py → Bool
  | .pyfunc => true
  | .pycls _ => true
  | _ => false

/-- `isinstance(p, type(AbstractPlot))`, i.e. `isinstance(p, ABCMeta)`:
true for class objects whose metaclass is ABCMeta. -/
def Py.isAbcClass : Py → Bool | .pycls b => b | _ => false

def Py.listElems : Py → List Py | .pylist l => l | _ => []

def Py.dictEntries : Py → List (Py × Py) | .pydict d => d | _ => []

/-- A character matched by the regex class `[a-zA-Z0-9]`. -/
def isAlnumAscii (c : Char) : Bool :=
  (decide ('a' ≤ c) && decide (c ≤ 'z')) ||
  (decide ('A' ≤ c) && decide (c ≤ 'Z')) ||
  (decide ('0' ≤ c) && decide (c ≤ '9'))

/-- Split a character list at every hyphen (keeping empty groups). -/
def idGroups : List Char → List (List Char)
  | [] => [[]]
  | c :: cs =>
    match idGroups cs with
    | [] => [[]]
    | g :: gs => if c = '-' then [] :: g :: gs else (c :: g) :: gs

/-- Whether the full character list matches `[a-zA-Z0-9]+(-[a-zA-Z0-9]+)*`:
every hyphen-separated group is non-empty and alphanumeric. -/
def idCore (cs : List Char) : Bool :=
  (idGroups cs).all (fun g => (! g.isEmpty) && g.all isAlnumAscii)

/-- Truthiness of `re.match(r"^[a-zA-Z0-9]+(-[a-zA-Z0-9]+)*$", s)`: in
Python `$` also matches just before one trailing newline, so the string
matches exactly when it, or the string minus a single trailing newline,
matches the bare pattern. -/
def pyIdMatch (s : String) : Bool :=
  let cs := s.toList
  idCore cs ||
    (match cs.getLast? with
     | some c => decide (c = '\n') && idCore cs.dropLast
     | none => false)

/-- The constructor arguments of `Webapp` (webapp.py lines 34-42), with the
default values of the signature. -/
structure WebappArgs : Type where
  piw_id : Py
  metadata : Py
  root_path : Py := .pystr "/"
  pages : Py := .pynone
  links : Py := .pynone
  load : Py := .pynone
  ctrls : Py := .pynone
  update : Py := .pynone
  ctrls_tables_modal : Py := .pynone
  ctrls_display : Py := .pynone
  generate_args : Py := .pynone
  proc : Py := .pynone
  glob_cfg : Py := .pynone
  styles : Py := .pynone
  lang : Py := .pystr "en"
  plots : Py := .pynone
  output : Py := .pynone
  sort_figs : Py := .pynone
  default_template : Py := .pystr "piw"
  input_caching : Py := .pybool false
  input_caching_dir : Py := .pynone
  debug : Py := .pybool false

/-- Whether `s` matches the regex on a `Py` value: only strings can. -/
def pyStrMatches (f : String → Bool) : Py → Bool
  | .pystr s => f s
  | _ => false

/-- The argument checks of `Webapp.__init__` (webapp.py lines 43-95), in
source order; the first failing check raises.  Note the `plots` check on
lines 79-81 tests `plots is not None or (...)`: it passes for every
non-None value and fails exactly when `plots` is `None`. -/
def webapp_validate (a : WebappArgs) : Except String Unit :=
  if ! (a.piw_id.isStr && pyStrMatches pyIdMatch a.piw_id) then
    .error "Argument piw_id of class Webapp has to be a string containing only lowercase letters, potentially separated by single hyphens."
  else if ! (a.root_path.isStr && pyStrMatches (fun s => strStartsWith s "/") a.root_path
      && pyStrMatches (fun s => s.toList.reverse.headD ' ' = '/') a.root_path) then
    .error "Argument root_path of class Webapp has to be a string and start and end with a slash."
  else if ! a.metadata.isDict then
    .error "Argument metadata must be a dict."
  else if ! (a.pages.isNone || (a.pages.isDict
      && a.pages.dictEntries.all (fun e => e.1.isStr)
      && a.pages.dictEntries.all (fun e => e.2.isStr))) then
    .error "Argument pages of class Webapp has to be a dict of strings."
  else if ! (a.links.isNone || (a.links.isDict
      && a.links.dictEntries.all (fun e => e.1.isStr)
      && a.links.dictEntries.all (fun e => e.2.isStr))) then
    .error "Argument links of class Webapp has to be a dict of strings."
  else if ! (a.load.isNone || (a.load.isList && a.load.listElems.all Py.isCallable)) then
    .error "Argument load of class Webapp has to be a list of callable functions."
  else if ! (a.ctrls.isNone || (a.ctrls.isList && a.ctrls.listElems.all Py.isCallable)) then
    .error "Argument ctrls of class Webapp has to be a list of callable functions."
  else if ! (a.update.isNone || (a.update.isList && a.update.listElems.all Py.isCallable)) then
    .error "Argument update of class Webapp has to be a list of callable functions."
  else if ! (a.ctrls_tables_modal.isNone || (a.ctrls_tables_modal.isDict
      && a.ctrls_tables_modal.dictEntries.all (fun e =>
        e.1.isStr && e.2.isList && e.2.listElems.all Py.isStr))) then
    .error "Argument ctrls_tables_modal of class Webapp has to be a dict that maps table IDs onto lists of column IDs."
  else if ! (a.proc.isNone || (a.proc.isList && a.proc.listElems.all Py.isCallable)) then
    .error "Argument proc of class Webapp has to be a list of callable functions."
  else if ! (a.glob_cfg.isNone || a.glob_cfg.isDict) then
    .error "Argument globCfg of class Webapp has to be a dict."
  else if ! (a.styles.isNone || a.styles.isDict) then
    .error "Argument styles of class Webapp has to be a dict."
  else if ! a.lang.isStr then
    .error "Argument lang of class Webapp must be a ISO 639-1 Language Code."
  else if ! ((! a.plots.isNone) || (a.plots.isList
      && a.plots.listElems.all Py.isAbcClass)) then
    .error "Argument plots must be a list of AbstractPlot objects."
  else if ! (a.output.isNone || a.output.isStr || a.output.isPath) then
    .error "Argument output of class Webapp has to be a string or Path object containing the output directory for exported plots."
  else if ! (a.sort_figs.isNone || a.sort_figs.isList) then
    .error "Argument sort_figs of class Webapp has to be a list of figure names provided as strings."
  else if ! a.default_template.isStr then
    .error "Argument default_template must be a string."
  else if ! a.input_caching.isBool then
    .error "Argument input_caching of class Webapp has to be boolean."
  else if ! (a.input_caching_dir.isNone || a.input_caching_dir.isStr
      || a.input_caching_dir.isPath) then
    .error "Argument input_caching_dir of class Webapp has to be a string or Path object."
  else if ! a.debug.isBool then
    .error "Argument debug of class Webapp has to be boolean."
  else
    .ok ()

/-! Lemmas about the derived sub-figure dict, for claims C9, C8 and C2. -/

/-- The sub-figure names one figure contributes: its declared sub-figure
names, or its own name when it declares none. -/
def figDeclaredNames (fe : String × Val) : List String :=
  dkeys (subfigs_piece fe)

/-- All sub-figure names contributed by a figure dict, in order, with
multiplicity. -/
def declaredSubfigNames (figs : List (String × Val)) : List String :=
  figs.foldr (fun fe acc => figDeclaredNames fe ++ acc) []

/-! Claim C6. -/

/-- Whether an `Except` result is an error. -/
def exceptIsError {ε α : Type} : Except ε α → Bool
  | .error _ => true
  | .ok _ => false

/-- The claim's raise condition, following the specification words: the
formats argument (a single string being treated as a one-element list)
contains a format outside the allowed set, or is neither a string nor a
list of strings. -/
def claimBadFormats : FormatsArg → Bool
  | .fother => true
  | .fstr s => ! decide (s ∈ ALLOWED_EXPORT_FORMATS)
  | .flist l => l.any (fun v => match v with
      | .vstr s => ! decide (s ∈ ALLOWED_EXPORT_FORMATS)
      | _ => true)

end Piw

namespace Piw

/-! Basic lemmas about the dict operations. -/

theorem dget_nil {β : Type} (k : String) : dget ([] : List (String × β)) k = none := rfl

theorem dget_cons {β : Type} (e : String × β) (rest : List (String × β)) (k : String) :
    dget (e :: rest) k = if e.1 = k then some e.2 else dget rest k := rfl

theorem dkeys_nil {β : Type} : dkeys ([] : List (String × β)) = [] := rfl

theorem dkeys_cons {β : Type} (e : String × β) (l : List (String × β)) :
    dkeys (e :: l) = e.1 :: dkeys l := rfl

theorem dget_eq_none_iff {β : Type} (l : List (String × β)) (k : String) :
    dget l k = none ↔ k ∉ dkeys l := by
  induction l with
  | nil => simp [dget, dkeys]
  | cons e rest ih =>
    rw [dget_cons, dkeys_cons]
    by_cases h : e.1 = k
    · simp [h]
    · simp only [if_neg h, List.mem_cons, ih]
      constructor
      · intro hk hor
        rcases hor with hor | hor
        · exact h hor.symm
        · exact hk hor
      · intro hk hmem
        exact hk (Or.inr hmem)

theorem dget_isSome_iff {β : Type} (l : List (String × β)) (k : String) :
    (dget l k).isSome = true ↔ k ∈ dkeys l := by
  rw [Option.isSome_iff_ne_none]
  constructor
  · intro h
    by_contra hk
    exact h ((dget_eq_none_iff l k).mpr hk)
  · intro h hn
    exact ((dget_eq_none_iff l k).mp hn) h

theorem dcontains_iff {β : Type} (l : List (String × β)) (k : String) :
    dcontains l k = true ↔ k ∈ dkeys l := by
  unfold dcontains
  exact dget_isSome_iff l k

theorem dget_mem {β : Type} {l : List (String × β)} {k : String} {v : β}
    (h : dget l k = some v) : (k, v) ∈ l := by
  induction l with
  | nil => simp [dget] at h
  | cons e rest ih =>
    rw [dget_cons] at h
    by_cases he : e.1 = k
    · rw [if_pos he] at h
      have hv : e.2 = v := Option.some.inj h
      have : e = (k, v) := by
        cases e
        simp only at he hv
        rw [he, hv]
      rw [← this]
      exact List.mem_cons_self _ _
    · rw [if_neg he] at h
      exact List.mem_cons_of_mem _ (ih h)

theorem mem_dget_of_nodup {β : Type} :
    ∀ {l : List (String × β)}, NodupKeys l →
      ∀ {k : String} {v : β}, (k, v) ∈ l → dget l k = some v := by
  intro l
  induction l with
  | nil => intro _ k v hm; simp at hm
  | cons e rest ih =>
    intro hl k v hm
    have hl' : e.1 ∉ dkeys rest ∧ (dkeys rest).Nodup := by
      have := hl
      rw [NodupKeys, dkeys_cons, List.nodup_cons] at this
      exact this
    rcases List.mem_cons.mp hm with h | h
    · rw [← h, dget_cons]
      simp
    · have hk : k ∈ dkeys rest := List.mem_map.mpr ⟨(k, v), h, rfl⟩
      have hne : e.1 ≠ k := fun he => hl'.1 (he ▸ hk)
      rw [dget_cons, if_neg hne]
      exact ih hl'.2 h

theorem dget_eq_some_iff_mem {β : Type} {l : List (String × β)} (hl : NodupKeys l)
    (k : String) (v : β) : dget l k = some v ↔ (k, v) ∈ l :=
  ⟨dget_mem, mem_dget_of_nodup hl⟩

theorem dget_dinsert_self {β : Type} (l : List (String × β)) (k : String) (v : β) :
    dget (dinsert k v l) k = some v := by
  induction l with
  | nil => simp [dinsert, dget]
  | cons e rest ih =>
    by_cases h : e.1 = k
    · simp [dinsert, h, dget]
    · simp [dinsert, h, dget, ih]

theorem dget_dinsert_ne {β : Type} (l : List (String × β)) (k k' : String) (v : β)
    (h : k' ≠ k) : dget (dinsert k v l) k' = dget l k' := by
  induction l with
  | nil => simp [dinsert, dget, Ne.symm h]
  | cons e rest ih =>
    by_cases he : e.1 = k
    · rw [dinsert, if_pos he, dget_cons, dget_cons]
      have h1 : ¬ (k = k') := fun hh => h hh.symm
      have h2 : ¬ (e.1 = k') := by
        rw [he]
        exact h1
      rw [if_neg h1, if_neg h2]
    · rw [dinsert, if_neg he, dget_cons, dget_cons, ih]

theorem mem_dkeys_dinsert {β : Type} (l : List (String × β)) (k k' : String) (v : β) :
    k' ∈ dkeys (dinsert k v l) ↔ k' = k ∨ k' ∈ dkeys l := by
  induction l with
  | nil => simp [dinsert, dkeys]
  | cons e rest ih =>
    by_cases he : e.1 = k
    · rw [dinsert, if_pos he, dkeys_cons, dkeys_cons]
      simp only [List.mem_cons, he]
      tauto
    · rw [dinsert, if_neg he, dkeys_cons, dkeys_cons]
      simp only [List.mem_cons, ih]
      tauto

theorem dkeys_dinsert_of_mem {β : Type} {l : List (String × β)} {k : String} (v : β)
    (h : k ∈ dkeys l) : dkeys (dinsert k v l) = dkeys l := by
  induction l with
  | nil => simp [dkeys] at h
  | cons e rest ih =>
    by_cases he : e.1 = k
    · rw [dinsert, if_pos he, dkeys_cons, dkeys_cons, he]
    · have hr : k ∈ dkeys rest := by
        rw [dkeys_cons, List.mem_cons] at h
        rcases h with h | h
        · exact absurd h.symm he
        · exact h
      rw [dinsert, if_neg he, dkeys_cons, dkeys_cons, ih hr]

theorem dkeys_dinsert_of_not_mem {β : Type} {l : List (String × β)} {k : String} (v : β)
    (h : k ∉ dkeys l) : dkeys (dinsert k v l) = dkeys l ++ [k] := by
  induction l with
  | nil => simp [dinsert, dkeys]
  | cons e rest ih =>
    rw [dkeys_cons, List.mem_cons] at h
    push_neg at h
    rw [dinsert, if_neg (fun hh => h.1 hh.symm), dkeys_cons, dkeys_cons, ih h.2,
      List.cons_append]

theorem nodupKeys_dinsert {β : Type} {l : List (String × β)} (k : String) (v : β)
    (h : NodupKeys l) : NodupKeys (dinsert k v l) := by
  by_cases hk : k ∈ dkeys l
  · unfold NodupKeys
    rw [dkeys_dinsert_of_mem v hk]
    exact h
  · unfold NodupKeys
    rw [dkeys_dinsert_of_not_mem v hk]
    simp only [List.nodup_append, List.nodup_cons, List.nodup_nil]
    refine ⟨h, by simp, ?_⟩
    intro a ha hb
    simp at hb
    subst hb
    exact hk ha

theorem mem_dinsert {β : Type} {l : List (String × β)} {k : String} {v : β}
    {e : String × β} (h : e ∈ dinsert k v l) : e = (k, v) ∨ e ∈ l := by
  induction l with
  | nil => simp [dinsert] at h; tauto
  | cons f rest ih =>
    by_cases hf : f.1 = k
    · rw [dinsert, if_pos hf, List.mem_cons] at h
      rcases h with h | h
      · left; exact h
      · right; exact List.mem_cons_of_mem _ h
    · rw [dinsert, if_neg hf, List.mem_cons] at h
      rcases h with h | h
      · right; rw [h]; exact List.mem_cons_self _ _
      · rcases ih h with h' | h'
        · left; exact h'
        · right; exact List.mem_cons_of_mem _ h'

theorem dget_append {β : Type} (a b : List (String × β)) (k : String) :
    dget (a ++ b) k = match dget a k with
      | some v => some v
      | none => dget b k := by
  induction a with
  | nil => simp [dget]
  | cons e rest ih =>
    by_cases he : e.1 = k
    · simp [dget_cons, he, List.cons_append]
    · simp only [List.cons_append, dget_cons, if_neg he]
      exact ih

theorem dget_eq_dfind {β : Type} (l : List (String × β)) (k : String) :
    dget l k = (dfind l k).map (·.2) := by
  induction l with
  | nil => rfl
  | cons e rest ih =>
    rw [dget_cons, dfind]
    by_cases he : e.1 = k
    · rw [if_pos he, if_pos he]; rfl
    · rw [if_neg he, if_neg he, ih]

theorem dfind_key {β : Type} {l : List (String × β)} {k : String} {e : String × β}
    (h : dfind l k = some e) : e.1 = k := by
  induction l with
  | nil => simp [dfind] at h
  | cons f rest ih =>
    rw [dfind] at h
    by_cases hf : f.1 = k
    · rw [if_pos hf] at h
      rw [← Option.some.inj h]
      exact hf
    · rw [if_neg hf] at h
      exact ih h

theorem dget_map_entries {β γ : Type} (l : List (String × β))
    (g : String × β → γ) (k : String) :
    dget (l.map (fun e => (e.1, g e))) k = (dfind l k).map g := by
  induction l with
  | nil => rfl
  | cons e rest ih =>
    rw [List.map_cons, dget_cons, dfind]
    by_cases he : e.1 = k
    · rw [if_pos he, if_pos he]; rfl
    · rw [if_neg he, if_neg he, ih]

theorem dget_filter_of_key_kept {β : Type} {p : String × β → Bool}
    {b : List (String × β)} {k : String}
    (h : ∀ e ∈ b, e.1 = k → p e = true) :
    dget (b.filter p) k = dget b k := by
  induction b with
  | nil => rfl
  | cons e rest ih =>
    have ih' := ih (fun e' he' hk => h e' (List.mem_cons_of_mem _ he') hk)
    by_cases hp : p e = true
    · rw [List.filter_cons_of_pos hp, dget_cons, dget_cons]
      by_cases he : e.1 = k
      · rw [if_pos he, if_pos he]
      · rw [if_neg he, if_neg he, ih']
    · have he : e.1 ≠ k := fun hk => hp (h e (List.mem_cons_self _ _) hk)
      rw [List.filter_cons_of_neg hp, dget_cons, if_neg he, ih']

theorem dget_dunion {β : Type} (a b : List (String × β)) (k : String) :
    dget (dunion a b) k = match dget b k with
      | some v => some v
      | none => dget a k := by
  rw [dunion, dget_append, dget_map_entries]
  cases hfind : dfind a k with
  | none =>
    have hka : dget a k = none := by rw [dget_eq_dfind, hfind]; rfl
    have hkmem : k ∉ dkeys a := (dget_eq_none_iff a k).mp hka
    have hfilt : dget (b.filter (fun e => ! dcontains a e.1)) k = dget b k := by
      apply dget_filter_of_key_kept
      intro e _ hk
      have : dcontains a e.1 = false := by
        rw [hk]
        cases hc : dcontains a k
        · rfl
        · exact absurd ((dcontains_iff a k).mp hc) hkmem
      rw [this]
      rfl
    rw [Option.map_none', hfilt, hka]
    cases dget b k <;> rfl
  | some e =>
    have hek : e.1 = k := dfind_key hfind
    have hka : dget a k = some e.2 := by rw [dget_eq_dfind, hfind]; rfl
    rw [Option.map_some', hek, hka]
    cases hb : dget b k with
    | some v => simp [hb]
    | none => simp [hb]

/-! Further lemmas: `pyDictOf` and `dunion` membership / nodup facts. -/

theorem mem_pyDictOf_aux {β : Type} :
    ∀ (l acc : List (String × β)) {e : String × β},
      e ∈ l.foldl (fun acc e => dinsert e.1 e.2 acc) acc → e ∈ acc ∨ e ∈ l := by
  intro l
  induction l with
  | nil => intro acc e h; left; exact h
  | cons f rest ih =>
    intro acc e h
    rcases ih (dinsert f.1 f.2 acc) h with h' | h'
    · rcases mem_dinsert h' with h'' | h''
      · right
        rw [h'']
        exact List.mem_cons_self _ _
      · left; exact h''
    · right; exact List.mem_cons_of_mem _ h'

theorem mem_pyDictOf {β : Type} {l : List (String × β)} {e : String × β}
    (h : e ∈ pyDictOf l) : e ∈ l := by
  rcases mem_pyDictOf_aux l [] h with h' | h'
  · simp at h'
  · exact h'

theorem mem_dkeys_pyDictOf_aux {β : Type} :
    ∀ (l acc : List (String × β)) (k : String),
      (k ∈ dkeys (l.foldl (fun acc e => dinsert e.1 e.2 acc) acc)
        ↔ k ∈ dkeys acc ∨ k ∈ dkeys l) := by
  intro l
  induction l with
  | nil => intro acc k; simp [dkeys]
  | cons f rest ih =>
    intro acc k
    rw [List.foldl_cons, ih, mem_dkeys_dinsert, dkeys_cons, List.mem_cons]
    tauto

theorem mem_dkeys_pyDictOf {β : Type} (l : List (String × β)) (k : String) :
    k ∈ dkeys (pyDictOf l) ↔ k ∈ dkeys l := by
  rw [pyDictOf, mem_dkeys_pyDictOf_aux]
  simp [dkeys]

theorem nodupKeys_pyDictOf_aux {β : Type} :
    ∀ (l acc : List (String × β)), NodupKeys acc →
      NodupKeys (l.foldl (fun acc e => dinsert e.1 e.2 acc) acc) := by
  intro l
  induction l with
  | nil => intro acc h; exact h
  | cons f rest ih =>
    intro acc h
    exact ih _ (nodupKeys_dinsert f.1 f.2 h)

theorem nodupKeys_pyDictOf {β : Type} (l : List (String × β)) :
    NodupKeys (pyDictOf l) :=
  nodupKeys_pyDictOf_aux l [] (by constructor)

theorem dget_pyDictOf_of_nodup {β : Type} {l : List (String × β)}
    (hl : NodupKeys l) (k : String) : dget (pyDictOf l) k = dget l k := by
  cases hg : dget (pyDictOf l) k with
  | none =>
    rw [dget_eq_none_iff] at hg
    rw [mem_dkeys_pyDictOf] at hg
    rw [(dget_eq_none_iff l k).mpr hg]
  | some v =>
    have := mem_pyDictOf (dget_mem hg)
    rw [mem_dget_of_nodup hl this]

theorem mem_dunion_or {β : Type} {a b : List (String × β)} {e : String × β}
    (h : e ∈ dunion a b) : e ∈ a ∨ e ∈ b := by
  rw [dunion, List.mem_append] at h
  rcases h with h | h
  · rcases List.mem_map.mp h with ⟨f, hf, hfe⟩
    cases hb : dget b f.1 with
    | none =>
      left
      rw [← hfe, hb]
      simpa using hf
    | some v =>
      right
      rw [← hfe, hb]
      exact dget_mem (by simpa using hb)
  · right
    exact List.mem_of_mem_filter h

theorem mem_dkeys_dunion {β : Type} (a b : List (String × β)) (k : String) :
    k ∈ dkeys (dunion a b) ↔ k ∈ dkeys a ∨ k ∈ dkeys b := by
  constructor
  · intro h
    rcases List.mem_map.mp h with ⟨e, he, hek⟩
    rcases mem_dunion_or he with h' | h'
    · left; exact List.mem_map.mpr ⟨e, h', hek⟩
    · right; exact List.mem_map.mpr ⟨e, h', hek⟩
  · intro h
    rw [← dget_isSome_iff, dget_dunion]
    rcases h with h | h
    · cases hb : dget b k with
      | some v => rfl
      | none =>
        have ha' : (dget a k).isSome = true := (dget_isSome_iff a k).mpr h
        simpa using ha'
    · have hb' : (dget b k).isSome = true := (dget_isSome_iff b k).mpr h
      cases hb : dget b k with
      | some v => rfl
      | none => rw [hb] at hb'; simp at hb'

theorem nodupKeys_dunion {β : Type} {a b : List (String × β)}
    (ha : NodupKeys a) (hb : NodupKeys b) : NodupKeys (dunion a b) := by
  rw [NodupKeys, dunion, dkeys, List.map_append, List.nodup_append]
  refine ⟨?_, ?_, ?_⟩
  · have : (a.map (fun e => (e.1, (dget b e.1).getD e.2))).map (·.1) = a.map (·.1) := by
      rw [List.map_map]
      rfl
    rw [this]
    exact ha
  · have hsub : (b.filter (fun e => ! dcontains a e.1)).map (·.1) |>.Sublist (b.map (·.1)) :=
      List.Sublist.map _ (List.filter_sublist b)
    exact List.Nodup.sublist hsub hb
  · intro k hk1 hk2
    have hk1' : k ∈ dkeys a := by
      rw [List.map_map] at hk1
      exact hk1
    rcases List.mem_map.mp hk2 with ⟨f, hf, hfk⟩
    have hmem := List.mem_filter.mp hf
    have hcf : dcontains a f.1 = false := by
      have := hmem.2
      cases hc : dcontains a f.1
      · rfl
      · rw [hc] at this; simp at this
    rw [dcontains] at hcf
    have hnone : dget a f.1 = none := by
      cases hg : dget a f.1 with
      | none => rfl
      | some v => rw [hg] at hcf; simp at hcf
    rw [dget_eq_none_iff] at hnone
    exact hnone (hfk ▸ hk1')

theorem dget_dunion_single {β : Type} (a : List (String × β)) (k : String) (v : β) :
    dget (dunion a [(k, v)]) k = some v := by
  rw [dget_dunion]
  simp [dget]

theorem dget_dunion_not_mem_right {β : Type} {b : List (String × β)} (a : List (String × β))
    {k : String} (h : k ∉ dkeys b) : dget (dunion a b) k = dget a k := by
  rw [dget_dunion, (dget_eq_none_iff b k).mpr h]

/-! Supporting lemmas for the claim theorems. -/

theorem dcontains_dinsert {β : Type} (l : List (String × β)) (k k' : String) (v : β) :
    dcontains (dinsert k v l) k' = if k' = k then true else dcontains l k' := by
  by_cases h : k' = k
  · rw [if_pos h, h, dcontains, dget_dinsert_self]
    rfl
  · rw [if_neg h, dcontains, dget_dinsert_ne l k k' v h]
    rfl

theorem dget_meta_step (c : String) (v : Val) (d : List (String × Val)) (k : String) :
    dget (meta_step c v d) k =
      if k = c ∧ dcontains d c = false then some v else dget d k := by
  rw [meta_step]
  by_cases hc : dcontains d c
  · rw [if_pos hc]
    have : ¬ (k = c ∧ dcontains d c = false) := by
      intro h
      rw [hc] at h
      exact absurd h.2 (by simp)
    rw [if_neg this]
  · have hc' : dcontains d c = false := by
      cases h : dcontains d c
      · rfl
      · exact absurd h hc
    rw [if_neg hc]
    by_cases hk : k = c
    · rw [hk, dget_dinsert_self, if_pos ⟨rfl, hc'⟩]
    · rw [dget_dinsert_ne d c k v hk, if_neg (fun h => hk h.1)]

theorem dcontains_meta_step (c : String) (v : Val) (d : List (String × Val)) (k : String) :
    dcontains (meta_step c v d) k = if k = c then true else dcontains d k := by
  rw [meta_step]
  by_cases hc : dcontains d c
  · rw [if_pos hc]
    by_cases hk : k = c
    · rw [if_pos hk, hk, hc]
    · rw [if_neg hk]
  · rw [if_neg hc, dcontains_dinsert]

theorem dget_insert_missing_metadata (today : String) (m : List (String × Val)) (k : String) :
    dget (insert_missing_metadata today m) k =
      if k ∈ (["title", "abstract", "authors", "date", "about"] : List String)
          ∧ dcontains m k = false
      then some (metaDefault today k) else dget m k := by
  rw [insert_missing_metadata]
  rw [dget_meta_step, dget_meta_step, dget_meta_step, dget_meta_step, dget_meta_step]
  rw [dcontains_meta_step, dcontains_meta_step, dcontains_meta_step, dcontains_meta_step]
  rw [dcontains_meta_step, dcontains_meta_step, dcontains_meta_step, dcontains_meta_step,
    dcontains_meta_step, dcontains_meta_step]
  by_cases h1 : k = "title" <;> by_cases h2 : k = "abstract" <;> by_cases h3 : k = "authors"
    <;> by_cases h4 : k = "date" <;> by_cases h5 : k = "about"
    <;> simp_all

/-! Claim C10. -/

/-- C10: `_insert_missing_metadata` adds default values only for the keys
`'title'`, `'abstract'`, `'authors'`, `'date'` and `'about'` and only when
the key is absent; every key already present keeps its original value, and
no other key is added or removed. -/
theorem insert_missing_metadata_frame (today : String) (m : List (String × Val)) :
    (∀ k : String, dcontains m k = true →
      dget (insert_missing_metadata today m) k = dget m k)
    ∧ (∀ k : String, k ∉ (["title", "abstract", "authors", "date", "about"] : List String) →
      dget (insert_missing_metadata today m) k = dget m k
      ∧ dcontains (insert_missing_metadata today m) k = dcontains m k)
    ∧ (∀ k : String, k ∈ (["title", "abstract", "authors", "date", "about"] : List String) →
      dcontains m k = false →
      dget (insert_missing_metadata today m) k = some (metaDefault today k)) := by
  refine ⟨?_, ?_, ?_⟩
  · intro k hk
    rw [dget_insert_missing_metadata]
    rw [if_neg (fun h => by rw [hk] at h; exact absurd h.2 (by simp))]
  · intro k hk
    constructor
    · rw [dget_insert_missing_metadata, if_neg (fun h => hk h.1)]
    · rw [dcontains, dcontains, dget_insert_missing_metadata, if_neg (fun h => hk h.1)]
  · intro k hk hm
    rw [dget_insert_missing_metadata, if_pos ⟨hk, hm⟩]

/-- Witness for C10 at concrete inputs: a present key keeps its value, a
foreign key is untouched, and an absent key gets its default. -/
theorem insert_missing_metadata_frame_witness :
    dget (insert_missing_metadata "2024-01-01"
        [("title", Val.vstr "T"), ("extra", Val.vnat 7)]) "title" = some (Val.vstr "T")
    ∧ dget (insert_missing_metadata "2024-01-01"
        [("title", Val.vstr "T"), ("extra", Val.vnat 7)]) "extra" = some (Val.vnat 7)
    ∧ dget (insert_missing_metadata "2024-01-01"
        [("title", Val.vstr "T"), ("extra", Val.vnat 7)]) "date"
      = some (Val.vstr "2024-01-01") := by
  refine ⟨?_, ?_, ?_⟩
  · rw [(insert_missing_metadata_frame "2024-01-01"
      [("title", Val.vstr "T"), ("extra", Val.vnat 7)]).1 "title" (by decide)]
    rfl
  · rw [((insert_missing_metadata_frame "2024-01-01"
      [("title", Val.vstr "T"), ("extra", Val.vnat 7)]).2.1 "extra" (by decide)).1]
    rfl
  · rw [(insert_missing_metadata_frame "2024-01-01"
      [("title", Val.vstr "T"), ("extra", Val.vnat 7)]).2.2 "date" (by decide) (by decide)]
    rfl

/-! Claim C1. -/

/-- C1 counterexample: for a plot with `cfg = {'a': 1}` and a single figure
`'F'` whose (implicit) sub-figure specification has no `'config'` key, the
claim predicts the `_subfig_cfgs` entry `cfg | {} = {'a': 1}`, but because
the Python conditional expression binds looser than `|`
(`(self.cfg | subfig_specs['config']) if 'config' in subfig_specs else {}`),
the code stores the empty dict instead. -/
theorem subfig_cfgs_counterexample :
    dget (subfig_cfgs [("a", Val.vnat 1)] [("F", Val.vdict [])]) "F"
      = some ([] : List (String × Val))
    ∧ dunion [("a", Val.vnat 1)] ([] : List (String × Val)) = [("a", Val.vnat 1)]
    ∧ ([] : List (String × Val)) ≠ [("a", Val.vnat 1)] := by
  refine ⟨rfl, rfl, ?_⟩
  intro h
  exact List.noConfusion h

/-- C1 amended: the `_subfig_cfgs` entry of a sub-figure equals the plot
`cfg` dict merged (right operand overriding) with the sub-figure's own
`'config'` dict when the specification has a `'config'` key, and equals the
empty dict when it has none. -/
theorem subfig_cfgs_amended (cfg figs : List (String × Val)) (n : String)
    (specs : List (String × Val)) (h : dget (subfigsOf figs) n = some specs) :
    (∀ cv : Val, dget specs "config" = some cv →
      dget (subfig_cfgs cfg figs) n = some (dunion cfg (asDict cv)))
    ∧ (dget specs "config" = none →
      dget (subfig_cfgs cfg figs) n = some ([] : List (String × Val))) := by
  have hfind : ∃ e : String × List (String × Val),
      dfind (subfigsOf figs) n = some e ∧ e.2 = specs := by
    rw [dget_eq_dfind] at h
    cases hf : dfind (subfigsOf figs) n with
    | none => rw [hf] at h; exact absurd h (by simp)
    | some e =>
      rw [hf] at h
      exact ⟨e, rfl, Option.some.inj h⟩
  rcases hfind with ⟨e, hf, he⟩
  have hmap : dget (subfig_cfgs cfg figs) n
      = some (match dget specs "config" with
        | some cv => dunion cfg (asDict cv)
        | none => []) := by
    rw [subfig_cfgs, dget_map_entries, hf, Option.map_some', he]
  constructor
  · intro cv hcv
    rw [hmap, hcv]
  · intro hnone
    rw [hmap, hnone]

/-- Witness for C1 amended: a sub-figure with a `'config'` key gets the
merge, one without gets the empty dict. -/
theorem subfig_cfgs_amended_witness :
    dget (subfig_cfgs [("a", Val.vnat 1), ("b", Val.vnat 3)]
        [("F", Val.vdict [("config", Val.vdict [("a", Val.vnat 2)])])]) "F"
      = some (dunion [("a", Val.vnat 1), ("b", Val.vnat 3)] [("a", Val.vnat 2)])
    ∧ dget (subfig_cfgs [("a", Val.vnat 1)] [("G", Val.vdict [])]) "G"
      = some ([] : List (String × Val)) := by
  constructor
  · exact (subfig_cfgs_amended [("a", Val.vnat 1), ("b", Val.vnat 3)]
      [("F", Val.vdict [("config", Val.vdict [("a", Val.vnat 2)])])] "F"
      [("config", Val.vdict [("a", Val.vnat 2)]), ("parent", Val.vstr "F")] rfl).1
      (Val.vdict [("a", Val.vnat 2)]) rfl
  · exact (subfig_cfgs_amended [("a", Val.vnat 1)]
      [("G", Val.vdict [])] "G" [("parent", Val.vstr "G")] rfl).2 rfl

/-! Claim C3. -/

/-- C3 counterexample: with `input_caching = True`, no cache file, and a
missing caching directory, the claim predicts that the load functions run
and the result is cached, but `_load_def_inputs` raises before any load
function runs. -/
theorem load_def_inputs_counterexample :
    load_def_inputs true ⟨false, false, []⟩ []
      = .error "Input caching directory does not exist."
    ∧ ∀ r : List (String × Val) × CacheState,
        load_def_inputs true ⟨false, false, []⟩ [] ≠ .ok r := by
  constructor
  · rfl
  · intro r h
    exact Except.noConfusion ((rfl :
      load_def_inputs true ⟨false, false, []⟩ []
        = .error "Input caching directory does not exist.").symm.trans h)

/-- C3 amended: when `input_caching` is true, the caching directory exists
and the cache file exists, the unpickled file content is returned unchanged
and no load function is called (the result does not depend on `load`);
when the directory exists but the file does not, or when caching is off,
all load functions run in order on an initially empty dict, and with
caching on the result is written to the cache file; when caching is on and
the caching directory does not exist, an exception is raised before any
load function runs. -/
theorem load_def_inputs_amended (cs : CacheState)
    (load : List (List (String × Val) → List (String × Val))) :
    (cs.dir_exists = true → cs.file_exists = true →
      load_def_inputs true cs load = .ok (cs.file_content, cs))
    ∧ (cs.dir_exists = true → cs.file_exists = false →
      load_def_inputs true cs load =
        .ok (load.foldl (fun acc f => f acc) [],
          { cs with file_exists := true,
                    file_content := load.foldl (fun acc f => f acc) [] }))
    ∧ load_def_inputs false cs load = .ok (load.foldl (fun acc f => f acc) [], cs)
    ∧ (cs.dir_exists = false →
      load_def_inputs true cs load = .error "Input caching directory does not exist.") := by
  refine ⟨?_, ?_, ?_, ?_⟩
  · intro hd hf
    rw [load_def_inputs, if_pos rfl, if_pos hd, if_pos hf]
  · intro hd hf
    rw [load_def_inputs, if_pos rfl, if_pos hd, if_neg (by rw [hf]; exact Bool.false_ne_true)]
  · rw [load_def_inputs, if_neg Bool.false_ne_true]
  · intro hd
    rw [load_def_inputs, if_pos rfl, if_neg (by rw [hd]; exact Bool.false_ne_true)]

/-- Witness for C3 amended, covering all four branches at concrete inputs. -/
theorem load_def_inputs_amended_witness :
    load_def_inputs true ⟨true, true, [("x", Val.vnat 1)]⟩
        [fun i => dinsert "y" (Val.vnat 2) i]
      = .ok ([("x", Val.vnat 1)], ⟨true, true, [("x", Val.vnat 1)]⟩)
    ∧ load_def_inputs true ⟨true, false, []⟩ [fun i => dinsert "y" (Val.vnat 2) i]
      = .ok ([("y", Val.vnat 2)], ⟨true, true, [("y", Val.vnat 2)]⟩)
    ∧ load_def_inputs false ⟨false, false, []⟩ []
      = .ok (([] : List (String × Val)), ⟨false, false, []⟩)
    ∧ load_def_inputs true ⟨false, false, []⟩ []
      = .error "Input caching directory does not exist." := by
  refine ⟨?_, ?_, ?_, ?_⟩
  · exact (load_def_inputs_amended ⟨true, true, [("x", Val.vnat 1)]⟩
      [fun i => dinsert "y" (Val.vnat 2) i]).1 rfl rfl
  · exact (load_def_inputs_amended ⟨true, false, []⟩
      [fun i => dinsert "y" (Val.vnat 2) i]).2.1 rfl rfl
  · exact (load_def_inputs_amended ⟨false, false, []⟩ []).2.2.1
  · exact (load_def_inputs_amended ⟨false, false, []⟩ []).2.2.2 rfl

/-! Claim C7. -/

/-- C7: the check on `plots` reads `plots is not None or (isinstance(plots,
list) and ...)` (webapp.py lines 79-81), so the constructor raises for the
documented default `plots=None` even when every other argument is valid,
and accepts any non-None non-list value such as `42`.  This theorem
evaluates the embedded validation at both inputs. -/
theorem webapp_validate_plots_bug :
    webapp_validate { piw_id := Py.pystr "my-app", metadata := Py.pydict [] }
      = .error "Argument plots must be a list of AbstractPlot objects."
    ∧ webapp_validate
        { piw_id := Py.pystr "my-app", metadata := Py.pydict [], plots := Py.pyint 42 }
      = .ok () := by
  exact ⟨rfl, rfl⟩

/-! Claim C4. -/

/-- C4: `produce` selects exactly the sub-figures whose parent figure is in
`fig_names` (all sub-figures when `fig_names` is `None`); when no
sub-figure qualifies, `plot` is not invoked (for every `plotFn` the
pre-decoration result is the same) and the result before decoration is
empty; with the `'print'` target (and the default no-op `_decorate`) the
returned dict is exactly that pre-decoration value. -/
theorem produce_selective (p : Plot) (inputs outputs : List (String × Val)) :
    (∀ fns : List String,
      produce_subfig_names p (some fns) =
        ((subfigsOf p.figs).filter (fun se =>
          match dget se.2 "parent" with
          | some (Val.vstr pn) => decide (pn ∈ fns)
          | _ => false)).map (·.1))
    ∧ produce_subfig_names p none = dkeys (subfigsOf p.figs)
    ∧ (∀ fns : List String, produce_subfig_names p (some fns) = [] →
        produce_pre p inputs outputs (some fns) = [])
    ∧ (∀ fig_names : Option (List String),
        produce p "print" inputs outputs fig_names = produce_pre p inputs outputs fig_names) := by
  refine ⟨fun fns => rfl, ?_, ?_, ?_⟩
  · rw [produce_subfig_names]
    have : (subfigsOf p.figs).filter (fun se =>
        match (none : Option (List String)) with
        | none => true
        | some fns =>
          match dget se.2 "parent" with
          | some (Val.vstr pn) => decide (pn ∈ fns)
          | _ => false) = subfigsOf p.figs := List.filter_true _
    rw [this]
    rfl
  · intro fns h
    rw [produce_pre, h]
    rfl
  · intro fig_names
    rw [produce]
    have : ("print" = "webapp") = False := by simp
    simp only [this, if_false]

/-- Witness for C4: for a plot with the single figure `'F'`, requesting only
the absent figure `'G'` selects nothing and produces the empty dict for
every plot function. -/
theorem produce_selective_witness :
    produce_subfig_names
        (Plot.mk [("F", Val.vdict [])] [] (fun _ _ _ => [("F", some ⟨["x"]⟩)])) (some ["G"]) = []
    ∧ produce_pre
        (Plot.mk [("F", Val.vdict [])] [] (fun _ _ _ => [("F", some ⟨["x"]⟩)])) [] []
        (some ["G"]) = []
    ∧ produce_subfig_names
        (Plot.mk [("F", Val.vdict [])] [] (fun _ _ _ => [("F", some ⟨["x"]⟩)])) none = ["F"] := by
  refine ⟨rfl, ?_, ?_⟩
  · exact (produce_selective
      (Plot.mk [("F", Val.vdict [])] [] (fun _ _ _ => [("F", some ⟨["x"]⟩)])) [] []).2.2.1
      ["G"] rfl
  · rw [(produce_selective
      (Plot.mk [("F", Val.vdict [])] [] (fun _ _ _ => [("F", some ⟨["x"]⟩)])) [] []).2.1]
    rfl

/-! Claim C5. -/

/-- C5: for every displayed figure, `show_fig_cards` returns the visible
(empty) style exactly when the pathname, stripped of the root-path prefix,
is a member of the figure's `'display'` list, and `{'display': 'none'}`
otherwise, and likewise for every control in `ctrls_display`; it raises
whenever the pathname does not start with the root path.  The final
conjunct records that the two styles are distinct, so "exactly when" is
meaningful. -/
theorem show_fig_cards_spec (root_path : String) (figs_displayed : List (String × Val))
    (ctrls_display : List (String × List String)) (pathname : String) :
    (strStartsWith pathname root_path = false →
      show_fig_cards root_path figs_displayed ctrls_display pathname
        = .error "Error in route: does not start with root path.")
    ∧ (strStartsWith pathname root_path = true →
      show_fig_cards root_path figs_displayed ctrls_display pathname =
        .ok ((figs_displayed.map (fun fe =>
            if figDisplayContains (strDrop pathname (strLen root_path)) fe.2
            then [] else hide_style))
          ++ (ctrls_display.map (fun ce =>
            if decide ((strDrop pathname (strLen root_path)) ∈ ce.2)
            then [] else hide_style))))
    ∧ ([] : List (String × String)) ≠ hide_style := by
  refine ⟨?_, ?_, ?_⟩
  · intro h
    rw [show_fig_cards, strip_route, if_neg (by rw [h]; exact Bool.false_ne_true)]
    rfl
  · intro h
    rw [show_fig_cards, strip_route, if_pos h]
    rfl
  · intro h
    exact List.noConfusion h

/-- Witness for C5: a concrete app with one displayed figure and one
control, at a matching pathname and at a pathname outside the root path. -/
theorem show_fig_cards_spec_witness :
    show_fig_cards "/" [("F", Val.vdict [("display", Val.vlist [Val.vstr "abc"])])]
        [("c1", ["other"])] "/abc"
      = .ok [[], hide_style]
    ∧ show_fig_cards "/root/" [("F", Val.vdict [("display", Val.vlist [Val.vstr "abc"])])]
        [("c1", ["other"])] "/abc"
      = .error "Error in route: does not start with root path." := by
  constructor
  · rw [(show_fig_cards_spec "/" [("F", Val.vdict [("display", Val.vlist [Val.vstr "abc"])])]
      [("c1", ["other"])] "/abc").2.1 (by decide)]
    rfl
  · exact (show_fig_cards_spec "/root/"
      [("F", Val.vdict [("display", Val.vlist [Val.vstr "abc"])])]
      [("c1", ["other"])] "/abc").1 (by decide)

theorem declaredSubfigNames_cons (fe : String × Val) (rest : List (String × Val)) :
    declaredSubfigNames (fe :: rest) = figDeclaredNames fe ++ declaredSubfigNames rest := rfl

theorem dget_subfig_entry_parent (fn : String) (d : List (String × Val)) :
    dget (subfig_entry fn d) "parent" = some (Val.vstr fn) := by
  rw [subfig_entry, dget_dunion]
  rfl

theorem subfig_entry_keys (fn : String) (d : List (String × Val)) :
    ∀ ke ∈ subfig_entry fn d, ke.1 ∈ (["size", "config", "parent"] : List String) := by
  intro ke hke
  rcases mem_dunion_or hke with h | h
  · have := (List.mem_filter.mp h).2
    have hmem : ke.1 ∈ sub_spec_keys := of_decide_eq_true this
    rw [sub_spec_keys] at hmem
    simp only [List.mem_cons, List.not_mem_nil, or_false] at hmem
    rcases hmem with h' | h' <;> simp [h']
  · simp only [List.mem_singleton] at h
    rw [h]
    simp

theorem mem_subfigs_step {acc : List (String × List (String × Val))}
    {fe : String × Val} {e : String × List (String × Val)}
    (h : e ∈ subfigs_step acc fe) : e ∈ acc ∨ e ∈ subfigs_piece fe := by
  rcases mem_dunion_or h with h' | h'
  · left; exact h'
  · right; exact mem_pyDictOf h'

theorem mem_subfigsOf_fold {Q : String × List (String × Val) → Prop} :
    ∀ (figs : List (String × Val)) (acc : List (String × List (String × Val))),
      (∀ e ∈ acc, Q e) →
      (∀ fe ∈ figs, ∀ e ∈ subfigs_piece fe, Q e) →
      ∀ e ∈ figs.foldl subfigs_step acc, Q e := by
  intro figs
  induction figs with
  | nil => intro acc hacc _ e he; exact hacc e he
  | cons f rest ih =>
    intro acc hacc hfigs e he
    rw [List.foldl_cons] at he
    refine ih (subfigs_step acc f) ?_ (fun fe hfe => hfigs fe (List.mem_cons_of_mem _ hfe)) e he
    intro e' he'
    rcases mem_subfigs_step he' with h | h
    · exact hacc e' h
    · exact hfigs f (List.mem_cons_self _ _) e' h

theorem mem_subfigsOf {figs : List (String × Val)} {e : String × List (String × Val)}
    (h : e ∈ subfigsOf figs) : ∃ fe ∈ figs, e ∈ subfigs_piece fe := by
  refine mem_subfigsOf_fold (Q := fun e => ∃ fe ∈ figs, e ∈ subfigs_piece fe)
    figs [] ?_ ?_ e h
  · intro e' he'; simp at he'
  · intro fe hfe e' he'
    exact ⟨fe, hfe, he'⟩

theorem mem_subfigs_piece_form {fe : String × Val} {e : String × List (String × Val)}
    (h : e ∈ subfigs_piece fe) : ∃ d : List (String × Val), e.2 = subfig_entry fe.1 d := by
  rw [subfigs_piece] at h
  cases hs : dget (asDict fe.2) "subfigs" with
  | some sfv =>
    rw [hs] at h
    rcases List.mem_map.mp h with ⟨se, _, hse⟩
    exact ⟨asDict se.2, by rw [← hse]⟩
  | none =>
    rw [hs, List.mem_singleton] at h
    exact ⟨asDict fe.2, by rw [h]⟩

/-- Preservation: folding the remaining figures does not change the value at
a key none of them declares. -/
theorem dget_subfigsOf_fold_preserve :
    ∀ (figs : List (String × Val)) (acc : List (String × List (String × Val))) (k : String),
      k ∉ declaredSubfigNames figs →
      dget (figs.foldl subfigs_step acc) k = dget acc k := by
  intro figs
  induction figs with
  | nil => intro acc k _; rfl
  | cons f rest ih =>
    intro acc k hk
    rw [declaredSubfigNames_cons, List.mem_append] at hk
    push_neg at hk
    rw [List.foldl_cons, ih (subfigs_step acc f) k hk.2, subfigs_step,
      dget_dunion_not_mem_right]
    intro hmem
    rw [dkeys] at hmem
    have : k ∈ dkeys (pyDictOf (subfigs_piece f)) := hmem
    rw [mem_dkeys_pyDictOf] at this
    exact hk.1 this

theorem dfind_of_mem_nodup {β : Type} :
    ∀ {l : List (String × β)}, NodupKeys l → ∀ {e : String × β}, e ∈ l →
      dfind l e.1 = some e := by
  intro l
  induction l with
  | nil => intro _ e he; simp at he
  | cons f rest ih =>
    intro hl e he
    have hl' : f.1 ∉ dkeys rest ∧ (dkeys rest).Nodup := by
      have := hl
      rw [NodupKeys, dkeys_cons, List.nodup_cons] at this
      exact this
    rcases List.mem_cons.mp he with h | h
    · rw [h, dfind, if_pos rfl]
    · have hk : e.1 ∈ dkeys rest := List.mem_map.mpr ⟨e, h, rfl⟩
      have hne : f.1 ≠ e.1 := fun hf => hl'.1 (hf ▸ hk)
      rw [dfind, if_neg hne]
      exact ih hl'.2 h

/-- Reaching lemma for figures without `'subfigs'`: when all declared names
are pairwise distinct, such a figure keeps its own entry in the fold
result. -/
theorem dget_subfigsOf_fold_own :
    ∀ (figs : List (String × Val)) (acc : List (String × List (String × Val))),
      (declaredSubfigNames figs).Nodup →
      ∀ fe ∈ figs, dget (asDict fe.2) "subfigs" = none →
        dget (figs.foldl subfigs_step acc) fe.1
          = some (subfig_entry fe.1 (asDict fe.2)) := by
  intro figs
  induction figs with
  | nil => intro acc _ fe hfe; simp at hfe
  | cons f rest ih =>
    intro acc hnd fe hfe hno
    rw [declaredSubfigNames_cons, List.nodup_append] at hnd
    rcases List.mem_cons.mp hfe with h | h
    · subst h
      rw [List.foldl_cons, dget_subfigsOf_fold_preserve rest (subfigs_step acc fe) fe.1 ?hnotin]
      case hnotin =>
        apply hnd.2.2
        rw [figDeclaredNames, subfigs_piece, hno, dkeys]
        simp
      rw [subfigs_step, subfigs_piece, hno]
      have : pyDictOf [(fe.1, subfig_entry fe.1 (asDict fe.2))]
          = [(fe.1, subfig_entry fe.1 (asDict fe.2))] := rfl
      rw [this, dget_dunion_single]
    · rw [List.foldl_cons]
      exact ih (subfigs_step acc f) hnd.2.1 fe h hno

/-- Reaching lemma for declared sub-figures: when all declared names are
pairwise distinct, each declared sub-figure keeps its filtered spec with its
parent name in the fold result. -/
theorem dget_subfigsOf_fold_declared :
    ∀ (figs : List (String × Val)) (acc : List (String × List (String × Val))),
      (declaredSubfigNames figs).Nodup →
      ∀ fe ∈ figs, ∀ sfv : Val, dget (asDict fe.2) "subfigs" = some sfv →
        ∀ se ∈ asDict sfv,
          dget (figs.foldl subfigs_step acc) se.1
            = some (subfig_entry fe.1 (asDict se.2)) := by
  intro figs
  induction figs with
  | nil => intro acc _ fe hfe; simp at hfe
  | cons f rest ih =>
    intro acc hnd fe hfe sfv hsf se hse
    rw [declaredSubfigNames_cons, List.nodup_append] at hnd
    rcases List.mem_cons.mp hfe with h | h
    · subst h
      have hdecl : figDeclaredNames fe = (asDict sfv).map (·.1) := by
        rw [figDeclaredNames, subfigs_piece, hsf, dkeys, List.map_map]
        rfl
      have hsekey : se.1 ∈ figDeclaredNames fe := by
        rw [hdecl]
        exact List.mem_map.mpr ⟨se, hse, rfl⟩
      rw [List.foldl_cons,
        dget_subfigsOf_fold_preserve rest (subfigs_step acc fe) se.1 (hnd.2.2 hsekey)]
      rw [subfigs_step, dget_dunion]
      have hpiecekeys : dkeys (subfigs_piece fe) = (asDict sfv).map (·.1) := hdecl
      have hndpiece : NodupKeys (subfigs_piece fe) := by
        rw [NodupKeys, hpiecekeys]
        rw [figDeclaredNames] at hnd
        rw [← hpiecekeys]
        exact hnd.1
      have hndsv : NodupKeys (asDict sfv) := by
        rw [NodupKeys]
        have : dkeys (asDict sfv) = (asDict sfv).map (·.1) := rfl
        rw [this]
        have := hndpiece
        rw [NodupKeys, hpiecekeys] at this
        exact this
      have hpy : dget (pyDictOf (subfigs_piece fe)) se.1
          = dget (subfigs_piece fe) se.1 := dget_pyDictOf_of_nodup hndpiece se.1
      have hpc : dget (subfigs_piece fe) se.1 = some (subfig_entry fe.1 (asDict se.2)) := by
        rw [subfigs_piece, hsf, dget_map_entries, dfind_of_mem_nodup hndsv hse]
        rfl
      rw [hpy, hpc]
    · rw [List.foldl_cons]
      exact ih (subfigs_step acc f) hnd.2.1 fe h sfv hsf se hse

/-! Claim C9. -/

/-- C9 counterexample: in
`figs = {'A': {}, 'B': {'subfigs': {'A': {}}}}` the figure `'A'` has no
`'subfigs'` key, yet its entry in the derived `subfigs` dict is overwritten
by figure `'B'`'s sub-figure of the same name, so its `'parent'` is `'B'`,
not itself, refuting "every figure whose specification has no `'subfigs'`
key appears in subfigs as its own single sub-figure ... with itself as
parent" as stated. -/
theorem subfigs_overwrite_counterexample :
    dcontains (asDict (Val.vdict [])) "subfigs" = false
    ∧ dget (subfigsOf [("A", Val.vdict []),
        ("B", Val.vdict [("subfigs", Val.vdict [("A", Val.vdict [])])])]) "A"
      = some [("parent", Val.vstr "B")]
    ∧ Val.vstr "B" ≠ Val.vstr "A" := by
  refine ⟨rfl, rfl, ?_⟩
  intro h
  have := Val.vstr.inj h
  exact absurd this (by decide)

/-- C9 amended: every entry of the derived `subfigs` dict carries a
`'parent'` key naming a figure present in `figs`, and besides `'parent'`
retains only `'size'` and `'config'` keys; and - provided all declared
sub-figure names (taking a figure without `'subfigs'` as declaring its own
name) are pairwise distinct - every figure without a `'subfigs'` key
appears under its own name with itself as parent and its `'size'`/`'config'`
entries kept, and every declared sub-figure keeps its filtered original
spec with its parent figure's name. -/
theorem subfigs_spec (figs : List (String × Val)) :
    (∀ e ∈ subfigsOf figs, ∃ fn : String, fn ∈ dkeys figs
      ∧ dget e.2 "parent" = some (Val.vstr fn))
    ∧ (∀ e ∈ subfigsOf figs, ∀ ke ∈ e.2,
        ke.1 ∈ (["size", "config", "parent"] : List String))
    ∧ ((declaredSubfigNames figs).Nodup →
      ∀ fe ∈ figs, dget (asDict fe.2) "subfigs" = none →
        dget (subfigsOf figs) fe.1 = some (subfig_entry fe.1 (asDict fe.2)))
    ∧ ((declaredSubfigNames figs).Nodup →
      ∀ fe ∈ figs, ∀ sfv : Val, dget (asDict fe.2) "subfigs" = some sfv →
        ∀ se ∈ asDict sfv,
          dget (subfigsOf figs) se.1 = some (subfig_entry fe.1 (asDict se.2))) := by
  refine ⟨?_, ?_, ?_, ?_⟩
  · intro e he
    rcases mem_subfigsOf he with ⟨fe, hfe, hpe⟩
    rcases mem_subfigs_piece_form hpe with ⟨d, hd⟩
    exact ⟨fe.1, List.mem_map.mpr ⟨fe, hfe, rfl⟩, by rw [hd, dget_subfig_entry_parent]⟩
  · intro e he
    rcases mem_subfigsOf he with ⟨fe, hfe, hpe⟩
    rcases mem_subfigs_piece_form hpe with ⟨d, hd⟩
    rw [hd]
    exact subfig_entry_keys fe.1 d
  · intro hnd fe hfe hno
    exact dget_subfigsOf_fold_own figs [] hnd fe hfe hno
  · intro hnd fe hfe sfv hsf se hse
    exact dget_subfigsOf_fold_declared figs [] hnd fe hfe sfv hsf se hse

/-- Witness for C9 amended at a concrete figure dict with one plain figure
and one figure declaring two sub-figures. -/
theorem subfigs_spec_witness :
    dget (subfigsOf [("A", Val.vdict [("size", Val.vnat 5)]),
        ("B", Val.vdict [("subfigs",
          Val.vdict [("S1", Val.vdict [("config", Val.vdict [])]), ("S2", Val.vdict [])])])])
      "A" = some [("size", Val.vnat 5), ("parent", Val.vstr "A")]
    ∧ dget (subfigsOf [("A", Val.vdict [("size", Val.vnat 5)]),
        ("B", Val.vdict [("subfigs",
          Val.vdict [("S1", Val.vdict [("config", Val.vdict [])]), ("S2", Val.vdict [])])])])
      "S1" = some [("config", Val.vdict []), ("parent", Val.vstr "B")] := by
  constructor
  · exact (subfigs_spec [("A", Val.vdict [("size", Val.vnat 5)]),
      ("B", Val.vdict [("subfigs",
        Val.vdict [("S1", Val.vdict [("config", Val.vdict [])]), ("S2", Val.vdict [])])])]).2.2.1
      (by decide) ("A", Val.vdict [("size", Val.vnat 5)]) (List.mem_cons_self _ _) rfl
  · exact (subfigs_spec [("A", Val.vdict [("size", Val.vnat 5)]),
      ("B", Val.vdict [("subfigs",
        Val.vdict [("S1", Val.vdict [("config", Val.vdict [])]), ("S2", Val.vdict [])])])]).2.2.2
      (by decide)
      ("B", Val.vdict [("subfigs",
        Val.vdict [("S1", Val.vdict [("config", Val.vdict [])]), ("S2", Val.vdict [])])])
      (List.mem_cons_of_mem _ (List.mem_cons_self _ _))
      (Val.vdict [("S1", Val.vdict [("config", Val.vdict [])]), ("S2", Val.vdict [])]) rfl
      ("S1", Val.vdict [("config", Val.vdict [])]) (List.mem_cons_self _ _)

/-! Lemmas about `add_placeholders`, for claims C8 and C2. -/

theorem dget_placeholder_step_self (d : List (String × Option GoFigure)) (n : String) :
    dget (placeholder_step d n) n =
      if dget d n = none ∨ dget d n = some none
      then some (some placeholder_fig) else dget d n := by
  rw [placeholder_step]
  cases hd : dget d n with
  | none => rw [if_pos (Or.inl rfl), dget_dinsert_self]
  | some o =>
    cases o with
    | none => rw [if_pos (Or.inr rfl), dget_dinsert_self]
    | some f => rw [if_neg (by simp), hd]

theorem dget_placeholder_step_ne (d : List (String × Option GoFigure)) (n k : String)
    (h : k ≠ n) : dget (placeholder_step d n) k = dget d k := by
  rw [placeholder_step]
  cases hd : dget d n with
  | none => rw [dget_dinsert_ne d n k _ h]
  | some o =>
    cases o with
    | none => rw [dget_dinsert_ne d n k _ h]
    | some f => rfl

theorem dget_add_placeholders :
    ∀ (names : List String) (d : List (String × Option GoFigure)) (k : String),
      dget (add_placeholders names d) k =
        if k ∈ names ∧ (dget d k = none ∨ dget d k = some none)
        then some (some placeholder_fig) else dget d k := by
  intro names
  induction names with
  | nil =>
    intro d k
    rw [add_placeholders, List.foldl_nil, if_neg]
    intro h
    exact absurd h.1 (List.not_mem_nil k)
  | cons n rest ih =>
    intro d k
    have hfold : add_placeholders (n :: rest) d
        = add_placeholders rest (placeholder_step d n) := rfl
    rw [hfold, ih]
    by_cases hk : k = n
    · subst hk
      by_cases hcond : dget d k = none ∨ dget d k = some none
      · have hstep : dget (placeholder_step d k) k = some (some placeholder_fig) := by
          rw [dget_placeholder_step_self, if_pos hcond]
        rw [hstep,
          if_neg (fun h => by rcases h.2 with h' | h' <;> simp at h'),
          if_pos ⟨List.mem_cons_self _ _, hcond⟩]
      · have hstep : dget (placeholder_step d k) k = dget d k := by
          rw [dget_placeholder_step_self, if_neg hcond]
        rw [hstep, if_neg (fun h => hcond h.2), if_neg (fun h => hcond h.2)]
    · rw [dget_placeholder_step_ne d n k hk]
      by_cases hr : k ∈ rest ∧ (dget d k = none ∨ dget d k = some none)
      · rw [if_pos hr, if_pos ⟨List.mem_cons_of_mem _ hr.1, hr.2⟩]
      · rw [if_neg hr,
          if_neg (fun h => hr ⟨(List.mem_cons.mp h.1).resolve_left hk, h.2⟩)]

/-! Claim C8. -/

/-- C8: with target `'webapp'` the dict `produce` returns contains a
non-None figure for every sub-figure of the plot; any sub-figure missing
from the plotted dict or plotted as `None` is replaced by the placeholder
figure (which carries the `'Press GENERATE'` annotation); with target
`'print'` the plotted dict is returned unchanged, with no placeholders
inserted. -/
theorem produce_webapp_placeholders (p : Plot) (inputs outputs : List (String × Val))
    (fig_names : Option (List String)) :
    (∀ name ∈ dkeys (subfigsOf p.figs),
      ∃ f : GoFigure, dget (produce p "webapp" inputs outputs fig_names) name = some (some f))
    ∧ (∀ name ∈ dkeys (subfigsOf p.figs),
      (dget (produce_pre p inputs outputs fig_names) name = none
        ∨ dget (produce_pre p inputs outputs fig_names) name = some none) →
      dget (produce p "webapp" inputs outputs fig_names) name = some (some placeholder_fig))
    ∧ produce p "print" inputs outputs fig_names = produce_pre p inputs outputs fig_names
    ∧ placeholder_fig.anns = ["<b>Press GENERATE to<br>display this plot.</b>"] := by
  have hweb : produce p "webapp" inputs outputs fig_names
      = add_placeholders (dkeys (subfigsOf p.figs)) (produce_pre p inputs outputs fig_names) := by
    rw [produce, if_pos rfl]
  refine ⟨?_, ?_, ?_, rfl⟩
  · intro name hname
    rw [hweb, dget_add_placeholders]
    by_cases hc : dget (produce_pre p inputs outputs fig_names) name = none
        ∨ dget (produce_pre p inputs outputs fig_names) name = some none
    · rw [if_pos ⟨hname, hc⟩]
      exact ⟨placeholder_fig, rfl⟩
    · rw [if_neg (fun h => hc h.2)]
      push_neg at hc
      cases hg : dget (produce_pre p inputs outputs fig_names) name with
      | none => exact absurd hg hc.1
      | some o =>
        cases o with
        | none => exact absurd hg hc.2
        | some f => exact ⟨f, rfl⟩
  · intro name hname hc
    rw [hweb, dget_add_placeholders, if_pos ⟨hname, hc⟩]
  · rw [produce, if_neg (by simp)]

/-- Witness for C8: a plot with sub-figures `'F'` (plotted) and `'G'`
(plotted as `None`): the webapp target keeps the plotted figure for `'F'`,
replaces `'G'` by the placeholder, and the print target returns the plotted
dict unchanged. -/
theorem produce_webapp_placeholders_witness :
    dget (produce
        (Plot.mk [("F", Val.vdict []), ("G", Val.vdict [])] []
          (fun _ _ _ => [("F", some ⟨["x"]⟩), ("G", none)]))
        "webapp" [] [] none) "F" = some (some ⟨["x"]⟩)
    ∧ dget (produce
        (Plot.mk [("F", Val.vdict []), ("G", Val.vdict [])] []
          (fun _ _ _ => [("F", some ⟨["x"]⟩), ("G", none)]))
        "webapp" [] [] none) "G" = some (some placeholder_fig)
    ∧ produce
        (Plot.mk [("F", Val.vdict []), ("G", Val.vdict [])] []
          (fun _ _ _ => [("F", some ⟨["x"]⟩), ("G", none)]))
        "print" [] [] none = [("F", some ⟨["x"]⟩), ("G", none)] := by
  refine ⟨?_, ?_, ?_⟩
  · rcases (produce_webapp_placeholders
      (Plot.mk [("F", Val.vdict []), ("G", Val.vdict [])] []
        (fun _ _ _ => [("F", some ⟨["x"]⟩), ("G", none)])) [] [] none).1
      "F" (by decide) with ⟨f, hf⟩
    rw [hf]
    have : dget (produce
        (Plot.mk [("F", Val.vdict []), ("G", Val.vdict [])] []
          (fun _ _ _ => [("F", some ⟨["x"]⟩), ("G", none)]))
        "webapp" [] [] none) "F" = some (some ⟨["x"]⟩) := rfl
    rw [this] at hf
    rw [← Option.some.inj (Option.some.inj hf)]
  · exact (produce_webapp_placeholders
      (Plot.mk [("F", Val.vdict []), ("G", Val.vdict [])] []
        (fun _ _ _ => [("F", some ⟨["x"]⟩), ("G", none)])) [] [] none).2.1
      "G" (by decide) (Or.inr rfl)
  · rw [(produce_webapp_placeholders
      (Plot.mk [("F", Val.vdict []), ("G", Val.vdict [])] []
        (fun _ _ _ => [("F", some ⟨["x"]⟩), ("G", none)])) [] [] none).2.2.1]
    rfl

theorem except_bind_ok {ε α β : Type} (a : α) (f : α → Except ε β) :
    (Except.ok a : Except ε α) >>= f = f a := rfl

theorem check_export_formats_iff (fa : FormatsArg) :
    exceptIsError (check_export_formats fa) = claimBadFormats fa := by
  cases fa with
  | fother => rfl
  | fstr s =>
    rw [check_export_formats, claimBadFormats]
    by_cases hb : (! formatOk (Val.vstr s)) = true
    · rw [if_pos hb]
      have hd : (! decide (s ∈ ALLOWED_EXPORT_FORMATS)) = true := hb
      rw [hd]
      rfl
    · rw [if_neg hb]
      have hd : (! decide (s ∈ ALLOWED_EXPORT_FORMATS)) = false := by
        cases hx : (! formatOk (Val.vstr s)) with
        | false => exact hx
        | true => exact absurd hx hb
      rw [hd]
      rfl
  | flist l =>
    rw [check_export_formats, claimBadFormats]
    have hfun : (fun v => ! formatOk v) = (fun v : Val => match v with
        | .vstr s => ! decide (s ∈ ALLOWED_EXPORT_FORMATS)
        | _ => true) := by
      funext v
      cases v <;> rfl
    rw [← hfun]
    by_cases hb : (l.any fun v => ! formatOk v) = true
    · rw [if_pos hb, hb]
      rfl
    · rw [if_neg hb]
      have hd : (l.any fun v => ! formatOk v) = false := by
        cases hx : (l.any fun v => ! formatOk v) with
        | false => rfl
        | true => exact absurd hx hb
      rw [hd]
      rfl

theorem export_inner_writes (p : Plot) (fmts : List String) :
    ∀ (entries : List (String × Option GoFigure)) (acc : List String),
      (∀ e ∈ entries, subfig_size_ok p e.1 = true) →
      (entries.foldlM (fun acc2 e => do
          let _ ← get_subfig_size_checked p e.1
          match e.2 with
          | none => pure acc2
          | some _ => pure (acc2 ++ fmts.map (fun fmt => e.1 ++ "." ++ fmt)))
        acc : Except String (List String))
      = .ok (acc ++ entries.foldr (fun e acc2 =>
          (match e.2 with
           | some _ => fmts.map (fun fmt => e.1 ++ "." ++ fmt)
           | none => []) ++ acc2) []) := by
  intro entries
  induction entries with
  | nil =>
    intro acc _
    rw [List.foldlM_nil, List.foldr_nil, List.append_nil]
    rfl
  | cons e rest ih =>
    intro acc hsz
    obtain ⟨n, fo⟩ := e
    rw [List.foldlM_cons]
    have hok : get_subfig_size_checked p (n, fo).1 = .ok () := by
      rw [get_subfig_size_checked, if_pos (hsz (n, fo) (List.mem_cons_self _ _))]
    have hrest : ∀ e ∈ rest, subfig_size_ok p e.1 = true :=
      fun e he => hsz e (List.mem_cons_of_mem _ he)
    cases fo with
    | none =>
      have hstep : ((do
          let _ ← get_subfig_size_checked p (n, (none : Option GoFigure)).1
          match (n, (none : Option GoFigure)).2 with
          | none => pure acc
          | some _ => pure (acc ++ fmts.map (fun fmt => (n, (none : Option GoFigure)).1 ++ "." ++ fmt)))
          : Except String (List String)) = .ok acc := by
        rw [hok]
        rfl
      rw [hstep, except_bind_ok, ih acc hrest, List.foldr_cons]
      rfl
    | some f =>
      have hstep : ((do
          let _ ← get_subfig_size_checked p (n, some f).1
          match (n, some f).2 with
          | none => pure acc
          | some _ => pure (acc ++ fmts.map (fun fmt => (n, some f).1 ++ "." ++ fmt)))
          : Except String (List String))
          = .ok (acc ++ fmts.map (fun fmt => n ++ "." ++ fmt)) := by
        rw [hok]
        rfl
      rw [hstep, except_bind_ok, ih _ hrest, List.foldr_cons, List.append_assoc]

theorem export_outer_writes (inputs outputs : List (String × Val))
    (fig_names : Option (List String)) (fmts : List String) :
    ∀ (plots : List Plot) (acc : List String),
      (∀ p ∈ plots, ∀ e ∈ produce p "print" inputs outputs fig_names,
        subfig_size_ok p e.1 = true) →
      (plots.foldlM (fun acc p =>
          let subfig_plots := produce p "print" inputs outputs fig_names
          subfig_plots.foldlM (fun acc2 e => do
            let _ ← get_subfig_size_checked p e.1
            match e.2 with
            | none => pure acc2
            | some _ => pure (acc2 ++ fmts.map (fun fmt => e.1 ++ "." ++ fmt))) acc)
        acc : Except String (List String))
      = .ok (acc ++ plots.foldr (fun p acc3 =>
          (produce p "print" inputs outputs fig_names).foldr (fun e acc2 =>
            (match e.2 with
             | some _ => fmts.map (fun fmt => e.1 ++ "." ++ fmt)
             | none => []) ++ acc2) [] ++ acc3) []) := by
  intro plots
  induction plots with
  | nil =>
    intro acc _
    rw [List.foldlM_nil, List.foldr_nil, List.append_nil]
    rfl
  | cons p rest ih =>
    intro acc hsz
    rw [List.foldlM_cons]
    have hp := export_inner_writes p fmts (produce p "print" inputs outputs fig_names) acc
      (hsz p (List.mem_cons_self _ _))
    rw [hp, except_bind_ok,
      ih _ (fun p' hp' => hsz p' (List.mem_cons_of_mem _ hp')),
      List.foldr_cons, List.append_assoc]

/-- C6 counterexample: with perfectly valid formats (`'png'`), `export`
still raises when input caching is on and the caching directory is missing,
so the export path does not raise "if and only if" the formats argument is
bad. -/
theorem export_counterexample :
    check_export_formats (FormatsArg.fstr "png") = .ok ["png"]
    ∧ claimBadFormats (FormatsArg.fstr "png") = false
    ∧ exportFiles (Webapp.mk "/" "piw" true [] [] [] [])
        [] ⟨false, false, []⟩ none (FormatsArg.fstr "png")
      = .error "Input caching directory does not exist." :=
  ⟨rfl, rfl, rfl⟩

/-- C6 amended: the format validation step of the export path raises
exactly when export_formats (a single string being treated as a one-element
list) contains a format outside the allowed set or is neither a string nor
a list of strings; the export path can additionally raise when the default
template is not registered, when the caching directory is missing, or when
a produced sub-figure has no print size; when the formats are valid and
those three steps succeed, it writes one file `<subfig_name>.<format>`
into the output directory for every produced non-None sub-figure and every
requested format. -/
theorem export_spec :
    (∀ fa : FormatsArg, exceptIsError (check_export_formats fa) = claimBadFormats fa)
    ∧ (∀ (w : Webapp) (registered : List String) (cs : CacheState)
        (fig_names : Option (List String)) (fa : FormatsArg) (fmts : List String)
        (reg' : List String) (inputs : List (String × Val)) (cs' : CacheState),
      check_export_formats fa = .ok fmts →
      set_template registered w.default_template = .ok reg' →
      load_def_inputs w.input_caching cs w.load = .ok (inputs, cs') →
      (∀ p ∈ w.plots, ∀ e ∈ produce p "print" inputs (proc_inputs w inputs) fig_names,
        subfig_size_ok p e.1 = true) →
      exportFiles w registered cs fig_names fa
        = .ok (w.plots.foldr (fun p acc3 =>
            (produce p "print" inputs (proc_inputs w inputs) fig_names).foldr (fun e acc2 =>
              (match e.2 with
               | some _ => fmts.map (fun fmt => e.1 ++ "." ++ fmt)
               | none => []) ++ acc2) [] ++ acc3) [])) := by
  constructor
  · exact check_export_formats_iff
  · intro w registered cs fig_names fa fmts reg' inputs cs' hfmt hset hload hsz
    rw [exportFiles, hfmt, except_bind_ok, hset, except_bind_ok, hload, except_bind_ok]
    have := export_outer_writes inputs (proc_inputs w inputs) fig_names fmts w.plots [] hsz
    rw [this, List.nil_append]

/-- Witness for C6 amended: both branches of the validation characterisation
and a full export run on a one-plot app writing `F.png`. -/
theorem export_spec_witness :
    exceptIsError (check_export_formats (FormatsArg.fstr "jpg"))
      = claimBadFormats (FormatsArg.fstr "jpg")
    ∧ claimBadFormats (FormatsArg.fstr "jpg") = true
    ∧ exportFiles
        (Webapp.mk "/" "piw" false [] [] []
          [Plot.mk [("F", Val.vdict [("size", Val.vdict [("print", Val.vdict [])])])] []
            (fun _ _ _ => [("F", some ⟨[]⟩)])])
        [] ⟨true, true, []⟩ none (FormatsArg.fstr "png")
      = .ok ["F.png"] := by
  refine ⟨export_spec.1 (FormatsArg.fstr "jpg"), rfl, ?_⟩
  have h := export_spec.2
    (Webapp.mk "/" "piw" false [] [] []
      [Plot.mk [("F", Val.vdict [("size", Val.vdict [("print", Val.vdict [])])])] []
        (fun _ _ _ => [("F", some ⟨[]⟩)])])
    [] ⟨true, true, []⟩ none (FormatsArg.fstr "png") ["png"] ["piw"] [] ⟨true, true, []⟩
    rfl rfl rfl (by decide)
  rw [h]
  rfl

/-! Sorting lemmas for claim C2. -/

theorem insertSorted_perm {α : Type} (key : α → Nat) (x : α) (l : List α) :
    (insertSorted key x l).Perm (x :: l) := by
  induction l with
  | nil => exact List.Perm.refl _
  | cons y ys ih =>
    rw [insertSorted]
    by_cases h : key x ≤ key y
    · rw [if_pos h]
    · rw [if_neg h]
      exact (ih.cons y).trans (List.Perm.swap x y ys)

theorem sortByKey_perm {α : Type} (key : α → Nat) (l : List α) :
    (sortByKey key l).Perm l := by
  induction l with
  | nil => exact List.Perm.refl _
  | cons x xs ih =>
    rw [sortByKey]
    exact (insertSorted_perm key x (sortByKey key xs)).trans (ih.cons x)

theorem pairwise_le_insertSorted {α : Type} (key : α → Nat) (x : α) {l : List α}
    (hl : l.Pairwise (fun a b => key a ≤ key b)) :
    (insertSorted key x l).Pairwise (fun a b => key a ≤ key b) := by
  induction l with
  | nil => exact List.pairwise_singleton _ _
  | cons y ys ih =>
    rw [insertSorted]
    rcases List.pairwise_cons.mp hl with ⟨hy, hys⟩
    by_cases h : key x ≤ key y
    · rw [if_pos h]
      refine List.pairwise_cons.mpr ⟨?_, hl⟩
      intro z hz
      rcases List.mem_cons.mp hz with hz | hz
      · rw [hz]; exact h
      · exact le_trans h (hy z hz)
    · rw [if_neg h]
      refine List.pairwise_cons.mpr ⟨?_, ih hys⟩
      intro z hz
      rcases List.mem_cons.mp ((insertSorted_perm key x ys).mem_iff.mp hz) with hz | hz
      · rw [hz]
        exact Nat.le_of_lt (Nat.lt_of_not_le h)
      · exact hy z hz

theorem pairwise_le_sortByKey {α : Type} (key : α → Nat) (l : List α) :
    (sortByKey key l).Pairwise (fun a b => key a ≤ key b) := by
  induction l with
  | nil => exact List.Pairwise.nil
  | cons x xs ih =>
    rw [sortByKey]
    exact pairwise_le_insertSorted key x ih

theorem nodup_of_nodupKeys {β : Type} {l : List (String × β)} (h : NodupKeys l) :
    l.Nodup := by
  have h' : (l.map (·.1)).Nodup := h
  exact List.Nodup.of_map _ h'

theorem nodupKeys_filter {β : Type} {l : List (String × β)} (p : String × β → Bool)
    (h : NodupKeys l) : NodupKeys (l.filter p) := by
  have h' : (l.map (·.1)).Nodup := h
  have hs : ((l.filter p).map (·.1)).Sublist (l.map (·.1)) :=
    List.Sublist.map _ (List.filter_sublist l)
  exact List.Nodup.sublist hs h'

theorem mem_filterMap_dget {β : Type} (l : List (String × β)) (order : List String)
    (e : String × β) :
    e ∈ order.filterMap (fun k => (dget l k).map (fun v => (k, v)))
      ↔ e.1 ∈ order ∧ dget l e.1 = some e.2 := by
  rw [List.mem_filterMap]
  constructor
  · rintro ⟨k, hk, hfm⟩
    cases hg : dget l k with
    | none => rw [hg] at hfm; exact absurd hfm (by simp)
    | some v =>
      rw [hg, Option.map_some'] at hfm
      have h1 : e.1 = k := by rw [← Option.some.inj hfm]
      have h2 : e.2 = v := by rw [← Option.some.inj hfm]
      rw [h1, h2]
      exact ⟨hk, hg⟩
  · rintro ⟨hk, hg⟩
    exact ⟨e.1, hk, by rw [hg, Option.map_some']⟩

theorem keys_filterMap_dget_sublist {β : Type} (l : List (String × β)) :
    ∀ order : List String,
      ((order.filterMap (fun k => (dget l k).map (fun v => (k, v)))).map (·.1)).Sublist
        order := by
  intro order
  induction order with
  | nil => simp
  | cons k rest ih =>
    rw [List.filterMap_cons]
    cases hg : dget l k with
    | none =>
      rw [Option.map_none']
      exact ih.cons k
    | some v =>
      rw [Option.map_some', List.map_cons]
      exact ih.cons₂ k

theorem pairwise_lt_filterMap_dget {β : Type} (l : List (String × β)) :
    ∀ order : List String, order.Nodup →
      (order.filterMap (fun k => (dget l k).map (fun v => (k, v)))).Pairwise
        (fun a b => order.indexOf a.1 < order.indexOf b.1) := by
  intro order
  induction order with
  | nil => simp
  | cons k rest ih =>
    intro hnd
    rcases List.nodup_cons.mp hnd with ⟨hk, hrest⟩
    rw [List.filterMap_cons]
    have htail : (rest.filterMap (fun k => (dget l k).map (fun v => (k, v)))).Pairwise
        (fun a b => (k :: rest).indexOf a.1 < (k :: rest).indexOf b.1) := by
      refine List.Pairwise.imp_of_mem ?_ (ih hrest)
      intro a b ha hb hab
      have hka : a.1 ∈ rest := ((mem_filterMap_dget l rest a).mp ha).1
      have hkb : b.1 ∈ rest := ((mem_filterMap_dget l rest b).mp hb).1
      have hne_a : k ≠ a.1 := fun h => hk (h ▸ hka)
      have hne_b : k ≠ b.1 := fun h => hk (h ▸ hkb)
      rw [List.indexOf_cons_ne rest hne_a, List.indexOf_cons_ne rest hne_b]
      exact Nat.succ_lt_succ hab
    cases hg : dget l k with
    | none =>
      rw [Option.map_none']
      exact htail
    | some v =>
      rw [Option.map_some']
      refine List.pairwise_cons.mpr ⟨?_, htail⟩
      intro b hb
      have hkb : b.1 ∈ rest := ((mem_filterMap_dget l rest b).mp hb).1
      have hne_b : k ≠ b.1 := fun h => hk (h ▸ hkb)
      rw [List.indexOf_cons_ne rest hne_b]
      have : (k :: rest).indexOf (k, v).1 = 0 := List.indexOf_cons_self k rest
      rw [this]
      exact Nat.succ_pos _

/-- Master sorting lemma: filtering a nodup-keyed dict to the keys of
`order` and stably sorting by position in `order` yields exactly the
entries read off along `order`. -/
theorem sorted_filter_canonical {β : Type} (order : List String) (l : List (String × β))
    (hl : NodupKeys l) (ho : order.Nodup) :
    sortByKey (fun e => order.indexOf e.1) (l.filter (fun e => decide (e.1 ∈ order)))
      = order.filterMap (fun k => (dget l k).map (fun v => (k, v))) := by
  have hperm1 := sortByKey_perm (fun e : String × β => order.indexOf e.1)
    (l.filter (fun e => decide (e.1 ∈ order)))
  have hnkflt : NodupKeys (l.filter (fun e => decide (e.1 ∈ order))) :=
    nodupKeys_filter _ hl
  have hnd_flt : (l.filter (fun e => decide (e.1 ∈ order))).Nodup :=
    nodup_of_nodupKeys hnkflt
  have hnk_tgt : NodupKeys (order.filterMap (fun k => (dget l k).map (fun v => (k, v)))) := by
    have h' := keys_filterMap_dget_sublist l order
    exact List.Nodup.sublist h' ho
  have hnd_tgt : (order.filterMap (fun k => (dget l k).map (fun v => (k, v)))).Nodup :=
    nodup_of_nodupKeys hnk_tgt
  have hmemiff : ∀ e : String × β,
      e ∈ l.filter (fun e => decide (e.1 ∈ order))
        ↔ e ∈ order.filterMap (fun k => (dget l k).map (fun v => (k, v))) := by
    intro e
    rw [List.mem_filter, mem_filterMap_dget]
    constructor
    · rintro ⟨hel, hdec⟩
      exact ⟨of_decide_eq_true hdec, mem_dget_of_nodup hl hel⟩
    · rintro ⟨ho', hg⟩
      exact ⟨dget_mem hg, decide_eq_true ho'⟩
  have hperm2 : (l.filter (fun e => decide (e.1 ∈ order))).Perm
      (order.filterMap (fun k => (dget l k).map (fun v => (k, v)))) :=
    (List.perm_ext_iff_of_nodup hnd_flt hnd_tgt).mpr hmemiff
  have hperm := hperm1.trans hperm2
  have hpair_le := pairwise_le_sortByKey (fun e : String × β => order.indexOf e.1)
    (l.filter (fun e => decide (e.1 ∈ order)))
  have hsorted_keysnodup : NodupKeys (sortByKey (fun e : String × β => order.indexOf e.1)
      (l.filter (fun e => decide (e.1 ∈ order)))) := by
    have hmapperm := hperm1.map (·.1)
    have h' : ((l.filter (fun e => decide (e.1 ∈ order))).map (·.1)).Nodup := hnkflt
    exact (List.Perm.nodup_iff hmapperm).mpr h'
  have hmem_sorted : ∀ e ∈ sortByKey (fun e : String × β => order.indexOf e.1)
      (l.filter (fun e => decide (e.1 ∈ order))), e.1 ∈ order := by
    intro e he
    have hef : e ∈ l.filter (fun e => decide (e.1 ∈ order)) := hperm1.mem_iff.mp he
    exact of_decide_eq_true (List.mem_filter.mp hef).2
  have hpair_ne : (sortByKey (fun e : String × β => order.indexOf e.1)
      (l.filter (fun e => decide (e.1 ∈ order)))).Pairwise (fun a b => a.1 ≠ b.1) := by
    have h' : ((sortByKey (fun e : String × β => order.indexOf e.1)
        (l.filter (fun e => decide (e.1 ∈ order)))).map (·.1)).Nodup := hsorted_keysnodup
    exact List.pairwise_map.mp h'
  have hpair_lt : (sortByKey (fun e : String × β => order.indexOf e.1)
      (l.filter (fun e => decide (e.1 ∈ order)))).Pairwise
      (fun a b => order.indexOf a.1 < order.indexOf b.1) := by
    refine List.Pairwise.imp_of_mem ?_ (hpair_le.and hpair_ne)
    intro a b ha hb hab
    have hia : a.1 ∈ order := hmem_sorted a ha
    have hib : b.1 ∈ order := hmem_sorted b hb
    have hne : order.indexOf a.1 ≠ order.indexOf b.1 := fun h =>
      hab.2 ((List.indexOf_inj hia hib).mp h)
    exact Nat.lt_of_le_of_ne hab.1 hne
  have hpair_lt_tgt := pairwise_lt_filterMap_dget l order ho
  haveI : IsAntisymm (String × β) (fun a b => order.indexOf a.1 < order.indexOf b.1) :=
    ⟨fun a b h1 h2 => absurd h2 (Nat.lt_asymm h1)⟩
  exact List.eq_of_perm_of_sorted hperm hpair_lt hpair_lt_tgt

theorem filterMap_dget_map_snd {β : Type} (l : List (String × β)) (dflt : β) :
    ∀ order : List String, (∀ k ∈ order, (dget l k).isSome = true) →
      (order.filterMap (fun k => (dget l k).map (fun v => (k, v)))).map (·.2)
        = order.map (fun k => (dget l k).getD dflt) := by
  intro order
  induction order with
  | nil => intro _; rfl
  | cons k rest ih =>
    intro hcov
    rw [List.filterMap_cons]
    cases hg : dget l k with
    | none =>
      have := hcov k (List.mem_cons_self _ _)
      rw [hg] at this
      exact absurd this (by simp)
    | some v =>
      rw [Option.map_some', List.map_cons, List.map_cons,
        ih (fun k' h => hcov k' (List.mem_cons_of_mem _ h))]
      congr 1
      rw [hg]
      rfl

/-! Coverage and nodup lemmas for the webapp display pipeline (claim C2). -/

theorem nodupKeys_add_placeholders :
    ∀ (names : List String) (d : List (String × Option GoFigure)),
      NodupKeys d → NodupKeys (add_placeholders names d) := by
  intro names
  induction names with
  | nil => intro d h; exact h
  | cons n rest ih =>
    intro d h
    have hfold : add_placeholders (n :: rest) d
        = add_placeholders rest (placeholder_step d n) := rfl
    rw [hfold]
    apply ih
    rw [placeholder_step]
    cases dget d n with
    | none => exact nodupKeys_dinsert _ _ h
    | some o =>
      cases o with
      | none => exact nodupKeys_dinsert _ _ h
      | some f => exact h

theorem nodupKeys_produce_pre (p : Plot) (inputs outputs : List (String × Val))
    (fig_names : Option (List String))
    (hnodup : ∀ ns : List String, NodupKeys (p.plotFn inputs outputs ns)) :
    NodupKeys (produce_pre p inputs outputs fig_names) := by
  rw [produce_pre]
  by_cases h : (produce_subfig_names p fig_names).isEmpty
  · rw [if_pos h]
    exact List.nodup_nil
  · rw [if_neg h]
    exact hnodup _

theorem nodupKeys_produce_webapp (p : Plot) (inputs outputs : List (String × Val))
    (fig_names : Option (List String))
    (hnodup : ∀ ns : List String, NodupKeys (p.plotFn inputs outputs ns)) :
    NodupKeys (produce p "webapp" inputs outputs fig_names) := by
  rw [produce, if_pos rfl]
  exact nodupKeys_add_placeholders _ _ (nodupKeys_produce_pre p inputs outputs fig_names hnodup)

theorem dget_produce_webapp_covers (p : Plot) (inputs outputs : List (String × Val))
    (fig_names : Option (List String)) :
    ∀ k ∈ dkeys (subfigsOf p.figs),
      ∃ f : GoFigure, dget (produce p "webapp" inputs outputs fig_names) k = some (some f) := by
  intro k hk
  rw [produce, if_pos rfl, dget_add_placeholders]
  by_cases hc : dget (produce_pre p inputs outputs fig_names) k = none
      ∨ dget (produce_pre p inputs outputs fig_names) k = some none
  · rw [if_pos ⟨hk, hc⟩]
    exact ⟨placeholder_fig, rfl⟩
  · rw [if_neg (fun h => hc h.2)]
    push_neg at hc
    cases hg : dget (produce_pre p inputs outputs fig_names) k with
    | none => exact absurd hg hc.1
    | some o =>
      cases o with
      | none => exact absurd hg hc.2
      | some f => exact ⟨f, rfl⟩

theorem dget_produce_webapp_isSome (p : Plot) (inputs outputs : List (String × Val))
    (fig_names : Option (List String))
    (hdom : ∀ ns : List String, ∀ e ∈ p.plotFn inputs outputs ns,
      e.1 ∈ dkeys (subfigsOf p.figs)) :
    ∀ (k : String) (v : Option GoFigure),
      dget (produce p "webapp" inputs outputs fig_names) k = some v →
      ∃ f : GoFigure, v = some f := by
  intro k v hv
  rw [produce, if_pos rfl, dget_add_placeholders] at hv
  by_cases hc : k ∈ dkeys (subfigsOf p.figs)
      ∧ (dget (produce_pre p inputs outputs fig_names) k = none
        ∨ dget (produce_pre p inputs outputs fig_names) k = some none)
  · rw [if_pos hc] at hv
    exact ⟨placeholder_fig, (Option.some.inj hv).symm⟩
  · rw [if_neg hc] at hv
    have hkmem : k ∈ dkeys (subfigsOf p.figs) := by
      have hmem := dget_mem hv
      rw [produce_pre] at hmem
      by_cases hemp : (produce_subfig_names p fig_names).isEmpty
      · rw [if_pos hemp] at hmem
        simp at hmem
      · rw [if_neg hemp] at hmem
        exact hdom _ (k, v) hmem
    have hnc : ¬ (dget (produce_pre p inputs outputs fig_names) k = none
        ∨ dget (produce_pre p inputs outputs fig_names) k = some none) :=
      fun h => hc ⟨hkmem, h⟩
    push_neg at hnc
    cases hg : dget (produce_pre p inputs outputs fig_names) k with
    | none => exact absurd hg hnc.1
    | some o =>
      cases o with
      | none => exact absurd hg hnc.2
      | some f =>
        rw [hg] at hv
        exact ⟨f, (Option.some.inj hv).symm⟩

theorem nodupKeys_foldl_dunion {β : Type} (out : Plot → List (String × β)) :
    ∀ (plots : List Plot) (init : List (String × β)),
      NodupKeys init → (∀ p ∈ plots, NodupKeys (out p)) →
      NodupKeys (plots.foldl (fun acc p => dunion acc (out p)) init) := by
  intro plots
  induction plots with
  | nil => intro init h _; exact h
  | cons p rest ih =>
    intro init h hall
    rw [List.foldl_cons]
    exact ih _ (nodupKeys_dunion h (hall p (List.mem_cons_self _ _)))
      (fun q hq => hall q (List.mem_cons_of_mem _ hq))

theorem dget_foldl_dunion_isSome {β : Type} (out : Plot → List (String × β)) (k : String) :
    ∀ (plots : List Plot) (init : List (String × β)),
      ((∃ p ∈ plots, (dget (out p) k).isSome = true) ∨ (dget init k).isSome = true) →
      (dget (plots.foldl (fun acc p => dunion acc (out p)) init) k).isSome = true := by
  intro plots
  induction plots with
  | nil =>
    rintro init (⟨p, hp, _⟩ | h)
    · simp at hp
    · exact h
  | cons p rest ih =>
    intro init h
    rw [List.foldl_cons]
    apply ih
    have hstep : ∀ (d : List (String × β)),
        ((dget (out p) k).isSome = true ∨ (dget d k).isSome = true) →
        (dget (dunion d (out p)) k).isSome = true := by
      intro d hd
      rw [dget_dunion]
      cases hg : dget (out p) k with
      | some v => rfl
      | none =>
        rcases hd with hd | hd
        · rw [hg] at hd; simp at hd
        · exact hd
    rcases h with ⟨q, hq, hs⟩ | hs
    · rcases List.mem_cons.mp hq with hq' | hq'
      · right
        exact hstep init (Or.inl (hq' ▸ hs))
      · left
        exact ⟨q, hq', hs⟩
    · right
      exact hstep init (Or.inr hs)

theorem dget_foldl_dunion_prop {β : Type} (Q : β → Prop) (out : Plot → List (String × β))
    (k : String) :
    ∀ (plots : List Plot) (init : List (String × β)),
      (∀ p ∈ plots, ∀ v : β, dget (out p) k = some v → Q v) →
      (∀ v : β, dget init k = some v → Q v) →
      ∀ v : β, dget (plots.foldl (fun acc p => dunion acc (out p)) init) k = some v → Q v := by
  intro plots
  induction plots with
  | nil => intro init _ hinit v hv; exact hinit v hv
  | cons p rest ih =>
    intro init hall hinit v hv
    rw [List.foldl_cons] at hv
    refine ih _ (fun q hq => hall q (List.mem_cons_of_mem _ hq)) ?_ v hv
    intro v' hv'
    rw [dget_dunion] at hv'
    cases hg : dget (out p) k with
    | some u =>
      rw [hg] at hv'
      exact hall p (List.mem_cons_self _ _) v' (hg.trans (congrArg some (Option.some.inj hv')))
    | none =>
      rw [hg] at hv'
      exact hinit v' hv'

theorem mem_dkeys_subfigsDisplayed_aux :
    ∀ (plots : List Plot) (k : String),
      k ∈ dkeys (plots.foldr (fun p acc =>
        (subfigsOf p.figs).filter (fun se => parentDisplayed p se.2) ++ acc) []) →
      ∃ p ∈ plots, k ∈ dkeys (subfigsOf p.figs) := by
  intro plots
  induction plots with
  | nil => intro k h; simp [dkeys] at h
  | cons p rest ih =>
    intro k h
    rw [List.foldr_cons, dkeys, List.map_append, List.mem_append] at h
    rcases h with h | h
    · refine ⟨p, List.mem_cons_self _ _, ?_⟩
      have hsub : (((subfigsOf p.figs).filter
          (fun se => parentDisplayed p se.2)).map (·.1)).Sublist
          ((subfigsOf p.figs).map (·.1)) :=
        List.Sublist.map _ (List.filter_sublist _)
      exact hsub.mem h
    · rcases ih k h with ⟨q, hq, hk⟩
      exact ⟨q, List.mem_cons_of_mem _ hq, hk⟩

theorem mem_dkeys_subfigsDisplayed {w : Webapp} {k : String}
    (h : k ∈ dkeys (subfigsDisplayed w)) :
    ∃ p ∈ w.plots, k ∈ dkeys (subfigsOf p.figs) := by
  rw [subfigsDisplayed, mem_dkeys_pyDictOf] at h
  exact mem_dkeys_subfigsDisplayed_aux w.plots k h

theorem display_covered (w : Webapp) (inputs : List (String × Val)) (figreq : List String)
    (hdom : ∀ p ∈ w.plots, ∀ i o : List (String × Val), ∀ ns : List String,
      ∀ e ∈ p.plotFn i o ns, e.1 ∈ dkeys (subfigsOf p.figs))
    (hnodup : ∀ p ∈ w.plots, ∀ i o : List (String × Val), ∀ ns : List String,
      NodupKeys (p.plotFn i o ns)) :
    NodupKeys (display w inputs figreq)
    ∧ ∀ k ∈ dkeys (subfigsDisplayed w),
        ∃ f : GoFigure, dget (display w inputs figreq) k = some (some f) := by
  have hdisp : display w inputs figreq
      = w.plots.foldl (fun acc p =>
          dunion acc (produce p "webapp" inputs (proc_inputs w inputs) (some figreq))) [] := rfl
  constructor
  · rw [hdisp]
    exact nodupKeys_foldl_dunion _ w.plots [] List.nodup_nil
      (fun p hp => nodupKeys_produce_webapp p _ _ _ (fun ns => hnodup p hp _ _ ns))
  · intro k hk
    rcases mem_dkeys_subfigsDisplayed hk with ⟨p, hp, hkp⟩
    have hsome : (dget (display w inputs figreq) k).isSome = true := by
      rw [hdisp]
      apply dget_foldl_dunion_isSome
      left
      refine ⟨p, hp, ?_⟩
      rcases dget_produce_webapp_covers p inputs (proc_inputs w inputs) (some figreq) k hkp
        with ⟨f, hf⟩
      rw [hf]
      rfl
    cases hg : dget (display w inputs figreq) k with
    | none => rw [hg] at hsome; simp at hsome
    | some v =>
      have hg' : dget (w.plots.foldl (fun acc p =>
          dunion acc (produce p "webapp" inputs (proc_inputs w inputs) (some figreq))) []) k
          = some v := by rw [← hdisp]; exact hg
      have hQ : ∃ f : GoFigure, v = some f := by
        refine dget_foldl_dunion_prop (fun v => ∃ f : GoFigure, v = some f) _ k w.plots []
          ?_ ?_ v hg'
        · intro q hq v' hv'
          exact dget_produce_webapp_isSome q _ _ _ (fun ns => hdom q hq _ _ ns) k v' hv'
        · intro v' hv'
          rw [dget_nil] at hv'
          exact absurd hv' (by simp)
      rcases hQ with ⟨f, hf⟩
      exact ⟨f, congrArg some hf⟩

/-! Claim C2. -/

/-- C2: whenever the regeneration callback fires on a UI event
(`ctx.triggered` non-empty), the pipeline re-executes: the default inputs
are copied and every update function is applied to them, every processing
function runs on them inside `display` (which is `_proc_inputs` followed by
`produce` for every plot with target `'webapp'`), the figures whose
`'display'` list contains the current route are requested, and the callback
returns exactly one figure per displayed sub-figure, in the declared order,
each of them non-None.  The hypotheses state that the user-supplied `plot`
methods return dicts (distinct keys) whose keys are among their own plot's
sub-figure names. -/
theorem callback_update_pipeline (w : Webapp) (def_inputs : List (String × Val))
    (hdom : ∀ p ∈ w.plots, ∀ i o : List (String × Val), ∀ ns : List String,
      ∀ e ∈ p.plotFn i o ns, e.1 ∈ dkeys (subfigsOf p.figs))
    (hnodup : ∀ p ∈ w.plots, ∀ i o : List (String × Val), ∀ ns : List String,
      NodupKeys (p.plotFn i o ns))
    (btn : Option String) (args : List Val) (pathname : String)
    (hroute : strStartsWith pathname w.root_path = true) :
    callback_update (mkEnv w def_inputs) true btn args pathname
      = .ok ((dkeys (subfigsDisplayed w)).map (fun k =>
          (dget (display w (w.updates.foldl (fun i u => u i btn args) def_inputs)
              (fig_names_req (figsDisplayed w) (strDrop pathname (strLen w.root_path))))
            k).getD none))
    ∧ ∀ k ∈ dkeys (subfigsDisplayed w),
        ∃ f : GoFigure,
          dget (display w (w.updates.foldl (fun i u => u i btn args) def_inputs)
              (fig_names_req (figsDisplayed w) (strDrop pathname (strLen w.root_path))))
            k = some (some f) := by
  have hcov := display_covered w
    (w.updates.foldl (fun i u => u i btn args) def_inputs)
    (fig_names_req (figsDisplayed w) (strDrop pathname (strLen w.root_path)))
    hdom hnodup
  refine ⟨?_, hcov.2⟩
  have hlhs : callback_update (mkEnv w def_inputs) true btn args pathname
      = .ok ((sortByKey (fun e => (dkeys (subfigsDisplayed w)).indexOf e.1)
          (List.filter (fun e => decide (e.1 ∈ dkeys (subfigsDisplayed w)))
            (display w (w.updates.foldl (fun i u => u i btn args) def_inputs)
              (fig_names_req (figsDisplayed w)
                (strDrop pathname (strLen w.root_path)))))).map (·.2)) := by
    unfold callback_update
    rw [show (mkEnv w def_inputs).root_path = w.root_path from rfl, strip_route,
      if_pos hroute, except_bind_ok, if_pos rfl]
    rfl
  rw [hlhs]
  have ho : (dkeys (subfigsDisplayed w)).Nodup := nodupKeys_pyDictOf _
  rw [sorted_filter_canonical (dkeys (subfigsDisplayed w)) _ hcov.1 ho]
  rw [filterMap_dget_map_snd _ none (dkeys (subfigsDisplayed w)) ?hcover]
  case hcover =>
    intro k hk
    rcases hcov.2 k hk with ⟨f, hf⟩
    rw [hf]
    rfl

/-- Witness for C2: a one-plot app whose figure `'F'` is displayed on the
default route; on a triggered event at pathname `/` the callback returns
exactly one (placeholder) figure for the single displayed sub-figure. -/
theorem callback_update_pipeline_witness :
    callback_update (mkEnv (Webapp.mk "/" "piw" false [] [] []
        [Plot.mk [("F", Val.vdict [("display", Val.vlist [Val.vstr ""])])] []
          (fun _ _ _ => [])]) []) true none [] "/"
      = .ok [some placeholder_fig] := by
  refine Eq.trans (callback_update_pipeline (Webapp.mk "/" "piw" false [] [] []
      [Plot.mk [("F", Val.vdict [("display", Val.vlist [Val.vstr ""])])] []
        (fun _ _ _ => [])]) [] ?_ ?_ none [] "/" rfl).1 ?_
  · intro p hp i o ns e he
    rcases List.mem_cons.mp hp with hp' | hp'
    · rw [hp'] at he
      simp at he
    · simp at hp'
  · intro p hp i o ns
    rcases List.mem_cons.mp hp with hp' | hp'
    · rw [hp']
      exact List.nodup_nil
    · simp at hp'
  · rfl

end Piw
